import Mathlib

/-!
# GridEYE: AMG8833sendToUDP.c

A shallow embedding of `main` of `AMG8833sendToUDP.c`: the AMG8833 bring-up
sequence, the status-polling loop, the thermistor computation, the text
encoding of one frame (`sprintf` calls) and the send / shutdown path.

Conventions of the embedding

* Text is `List Char`; the C string in `sendText` is the list without its
  terminating NUL.
* `int` values are `Int`; where the source adds to an `int` the result is
  reduced with `wrapInt32` (two's-complement wrap, what gcc produces on the
  target; ISO C leaves signed overflow undefined).
* Signedness of plain `char` is implementation-defined in C.  It is the field
  `charSigned` of `Target`.  The program links against pigpio and therefore
  runs on a Raspberry Pi (ARM Linux), where plain `char` is unsigned: that
  target is `raspberryPi`.
* `sprintf( sendText, "%s...", sendText, ... )` is used by the source to
  append to `sendText`; it is embedded as list append.
* `printf` conversions follow ISO C / glibc: `%d`, `%0Nd`, `%02x` (argument
  read as `unsigned int`), `%5.2f` (correctly rounded, ties to even).
* The outside world (pigpio, the socket layer, the clock) is an explicit
  script of return values; bus transactions deliver the sensor registers.
  Every externally visible call is recorded as an `Event`.
* Command-line handling (`-ip`, `-port`) precedes everything modelled here
  and does not influence any event other than the destination address.
-/

namespace GridEYE

/-! ## Machine-level conventions -/

/-- Text held in a C character array, without the terminating NUL. -/
abbrev Text := List Char

/-- Implementation-defined facts of the C target. -/
structure Target where
  /-- Whether plain `char` is a signed type. -/
  charSigned : Bool
  deriving DecidableEq, Repr

/-- The platform the program is built for (pigpio: Raspberry Pi, ARM Linux
EABI / AArch64), where plain `char` is unsigned. -/
def raspberryPi : Target := ⟨false⟩

/-- A target with signed plain `char` (for instance x86 Linux). -/
def signedCharTarget : Target := ⟨true⟩

/-- Two's-complement reduction of an integer to the range of a 32-bit `int`. -/
def wrapInt32 (v : Int) : Int := (v + 2147483648) % 4294967296 - 2147483648

/-- Bit pattern of an `int` read as `unsigned int`. -/
def toUnsigned32 (v : Int) : Nat := (v % 4294967296).toNat

/-- Value of a plain `char` object holding the byte `b`, after promotion to `int`. -/
def charValue (T : Target) (b : Nat) : Int :=
  if T.charSigned && decide (128 ≤ b) then (b : Int) - 256 else (b : Int)

/-- Byte stored when an `int` is assigned to a `char` object. -/
def toByte (v : Int) : Nat := (v % 256).toNat

/-- The conversion `(uint16_t) v`. -/
def toUint16 (v : Int) : Int := v % 65536

/-! ## printf conversions -/

/-- Left-pads `s` with `c` up to `width` characters (no truncation). -/
def padLeft (width : Nat) (c : Char) (s : Text) : Text :=
  List.replicate (width - s.length) c ++ s

/-- Conversion `%d`. -/
def fmt_d (v : Int) : Text :=
  if v < 0 then '-' :: Nat.toDigits 10 v.natAbs else Nat.toDigits 10 v.natAbs

/-- Conversion `%0Nd` with `N = width`: the sign, then zeros, then the digits. -/
def fmt_0d (width : Nat) (v : Int) : Text :=
  if v < 0 then '-' :: padLeft (width - 1) '0' (Nat.toDigits 10 v.natAbs)
  else padLeft width '0' (Nat.toDigits 10 v.natAbs)

/-- Conversion `%02x` applied to an `int` argument. -/
def fmt_02x (v : Int) : Text :=
  padLeft 2 '0' (Nat.toDigits 16 (toUnsigned32 v))

/-- Hundredths nearest to `|num| / den`, ties to even (glibc, default rounding mode). -/
def roundHundredths (num : Int) (den : Nat) : Nat :=
  let scaled := num.natAbs * 100
  let q := scaled / den
  let r := scaled % den
  if 2 * r > den ∨ (2 * r = den ∧ q % 2 = 1) then q + 1 else q

/-- Conversion `%5.2f` applied to the value `num / den` (exact in `double` for the
argument `temp * 0.0625`, a 32-bit integer times a power of two): sign, integer
part, point, two decimals, right-aligned in width 5. -/
def fmt_5_2f (num : Int) (den : Nat) : Text :=
  let h := roundHundredths num den
  let body := Nat.toDigits 10 (h / 100) ++ '.' :: padLeft 2 '0' (Nat.toDigits 10 (h % 100))
  padLeft 5 ' ' (if num < 0 then '-' :: body else body)

/-! ## Sensor data -/

/-- The `struct tm` fields the program prints. -/
structure Tm where
  tm_year : Int
  tm_mon : Int
  tm_mday : Int
  tm_hour : Int
  tm_min : Int
  tm_sec : Int

/-- The statement `temp = cl + ( ( ch & 0x07 ) << 8 )` with `ch`, `cl` the plain
`char` objects assigned from `i2cReadByteData( handle, 0x0F )` and
`i2cReadByteData( handle, 0x0E )`. -/
def thermistorTemp (T : Target) (readHigh readLow : Int) : Int :=
  let ch := charValue T (toByte readHigh)
  let cl := charValue T (toByte readLow)
  cl + (((toUnsigned32 ch &&& 0x07) <<< 8 : Nat) : Int)

/-- Result of `i2cReadI2CBlockData( handle, reg, &buf[off], count )` on `buf`:
bytes `off .. off+count-1` receive sensor registers `reg .. reg+count-1`. -/
def i2cReadI2CBlockData (regs : Nat → Nat) (reg : Nat) (buf : List Nat) (off count : Nat) :
    List Nat :=
  buf.take off ++ (List.range count).map (fun j => regs (reg + j) % 256) ++ buf.drop (off + count)

/-- The four block reads of the loop body, in source order. -/
def readPixels (regs : Nat → Nat) (buf : List Nat) : List Nat :=
  let buf := i2cReadI2CBlockData regs 0x80 buf 0 32
  let buf := i2cReadI2CBlockData regs 0xA0 buf 32 32
  let buf := i2cReadI2CBlockData regs 0xC0 buf 64 32
  i2cReadI2CBlockData regs 0xE0 buf 96 32

/-- Access `buf[ i ]` of the global `char buf[128]`. -/
def bufAt (buf : List Nat) (i : Nat) : Nat := buf.getD i 0

/-! ## Frame encoding -/

/-- The header `sprintf`. -/
def header (ct temp : Int) (tm : Tm) (tv_usec : Int) : Text :=
  "Device:AMG8833; Width:8; Height:8; Frame:".toList ++ fmt_d ct ++
  "; Thermistor: ".toList ++ fmt_5_2f temp 16 ++
  "; Date:".toList ++ fmt_0d 4 (wrapInt32 (tm.tm_year + 1900)) ++
  "/".toList ++ fmt_0d 2 (wrapInt32 (tm.tm_mon + 1)) ++
  "/".toList ++ fmt_0d 2 tm.tm_mday ++
  " ".toList ++ fmt_0d 2 tm.tm_hour ++
  ":".toList ++ fmt_0d 2 tm.tm_min ++
  ":".toList ++ fmt_0d 2 tm.tm_sec ++
  ",".toList ++ fmt_0d 3 (toUint16 (Int.tdiv tv_usec 1000)) ++
  "; ThermalData:\r\n".toList

/-- One pass of the inner loop body: `readpt`, `th`, `tl` and the appending `sprintf`. -/
def appendPixel (T : Target) (buf : List Nat) (y : Nat) (sendText : Text) (x : Nat) : Text :=
  let readpt := (y <<< 4) + (x <<< 1)
  let th := charValue T (bufAt buf (readpt + 1))
  let tl := charValue T (bufAt buf readpt)
  sendText ++ fmt_02x th ++ ",".toList ++ fmt_02x tl ++ ",".toList

/-- The nested `for ( y ... ) for ( x ... )` loops followed by the CRLF `sprintf`. -/
def appendPixels (T : Target) (buf : List Nat) (sendText : Text) : Text :=
  (List.range 8).foldl
    (fun acc y => (List.range 8).foldl (appendPixel T buf y) acc) sendText
  ++ "\r\n".toList

/-- Text the loops append to an empty string: the pixel section. -/
def pixelSection (T : Target) (buf : List Nat) : Text := appendPixels T buf []

/-- Content of `sendText` when `sendto` is called. -/
def encodeFrame (T : Target) (ct temp : Int) (tm : Tm) (tv_usec : Int) (buf : List Nat) : Text :=
  appendPixels T buf (header ct temp tm tv_usec)

/-- The byte count `strlen( sendText ) + 1` passed to `sendto`. -/
def sendLength (sendText : Text) : Nat := sendText.length + 1

/-! ## The program as a transition system over an explicit world -/

/-- Externally visible calls of `main`, with the values they return. -/
inductive Event
  | gpioInitialise (ret : Int)
  | socket (ret : Int)
  | perror
  | setsockopt (fd : Int)
  | i2cOpen (ret : Int)
  | i2cWriteByteData (handle : Int) (reg val : Nat)
  | i2cReadByteData (handle : Int) (reg : Nat) (ret : Int)
  | i2cReadI2CBlockData (handle : Int) (reg off count : Nat)
  | usleep (usec : Nat)
  /-- The calls `time`, `localtime_r` and `gettimeofday`. -/
  | clock
  | sendto (fd : Int) (sendText : Text) (len : Nat) (ret : Int)
  | close (fd : Int)
  | i2cClose (handle : Int)
  | gpioTerminate
  deriving DecidableEq

/-- What the world answers during one pass through the body of `while ( 1 )`.
Everything but `status` is consulted only when `status` is non-zero. -/
structure Sample where
  /-- Return value of `i2cReadByteData( handle, 0x04 )`. -/
  status : Int
  /-- Sensor register file, one byte per register address. -/
  regs : Nat → Nat
  /-- Return value of `i2cReadByteData( handle, 0x0F )`. -/
  thermHigh : Int
  /-- Return value of `i2cReadByteData( handle, 0x0E )`. -/
  thermLow : Int
  /-- Result of `localtime_r`. -/
  tm : Tm
  /-- Field `tv.tv_usec` after `gettimeofday`. -/
  tv_usec : Int
  /-- Return value of `sendto`. -/
  send_status : Int

/-- Everything the environment decides in one execution of `main`. -/
structure World where
  /-- Return value of `gpioInitialise( )`. -/
  gpio : Int
  /-- Return value of `socket( AF_INET, SOCK_DGRAM, 0 )`. -/
  sock_descriptor : Int
  /-- Return value of `i2cOpen( 1, AMG8833_I2C_ADDRESS, 0 )`. -/
  handle : Int
  /-- Answers for the successive passes through the loop body. -/
  samples : List Sample

/-- Variables that survive from one pass of the loop to the next. -/
structure LoopState where
  /-- The frame counter `ct`. -/
  ct : Int
  /-- The global `char buf[128]`, as raw bytes. -/
  buf : List Nat

/-- Result of one pass through the loop body. -/
structure Step where
  events : List Event
  state : LoopState
  /-- Whether the pass left the loop through `break`. -/
  broke : Bool

/-- The AMG8833 configuration block between `i2cOpen` and the loop. -/
def configure (handle : Int) : List Event :=
  [ Event.i2cWriteByteData handle 0x00 0x00,
    Event.usleep 50000,
    Event.i2cWriteByteData handle 0x01 0x3F,
    Event.usleep 20000,
    Event.i2cWriteByteData handle 0x01 0x30,
    Event.i2cWriteByteData handle 0x02 0x00,
    Event.i2cWriteByteData handle 0x03 0x03,
    Event.i2cWriteByteData handle 0x1F 0x50,
    Event.i2cWriteByteData handle 0x1F 0x45,
    Event.i2cWriteByteData handle 0x1F 0x57,
    Event.i2cWriteByteData handle 0x07 0x20,
    Event.i2cWriteByteData handle 0x1F 0x00 ]

/-- Bus and clock calls of a pass that found a non-zero status, up to the encoding. -/
def acquireEvents (handle : Int) (w : Sample) : List Event :=
  [ Event.i2cReadByteData handle 0x04 w.status,
    Event.i2cReadI2CBlockData handle 0x80 0 32,
    Event.i2cReadI2CBlockData handle 0xA0 32 32,
    Event.i2cReadI2CBlockData handle 0xC0 64 32,
    Event.i2cReadI2CBlockData handle 0xE0 96 32,
    Event.i2cWriteByteData handle 0x05 0x06,
    Event.i2cReadByteData handle 0x0F w.thermHigh,
    Event.i2cReadByteData handle 0x0E w.thermLow,
    Event.clock ]

/-- One pass through the body of `while ( 1 )`. -/
def loopBody (T : Target) (handle sock_descriptor : Int) (s : LoopState) (w : Sample) : Step :=
  if w.status = 0 then
    ⟨[Event.i2cReadByteData handle 0x04 w.status, Event.usleep 10000], s, false⟩
  else
    let buf := readPixels w.regs s.buf
    let temp := thermistorTemp T w.thermHigh w.thermLow
    let sendText := encodeFrame T s.ct temp w.tm w.tv_usec buf
    let sent := Event.sendto sock_descriptor sendText (sendLength sendText) w.send_status
    if w.send_status < 0 then
      ⟨acquireEvents handle w ++ [sent, Event.perror], ⟨s.ct, buf⟩, true⟩
    else
      ⟨acquireEvents handle w ++ [sent], ⟨wrapInt32 (s.ct + 1), buf⟩, false⟩

/-- The loop `while ( 1 )` run against the successive samples; `broke` is false
when the samples are used up with the loop still running. -/
def whileLoop (T : Target) (handle sock_descriptor : Int) : LoopState → List Sample → Step
  | s, [] => ⟨[], s, false⟩
  | s, w :: ws =>
    let r := loopBody T handle sock_descriptor s w
    if r.broke then r
    else
      let r2 := whileLoop T handle sock_descriptor r.state ws
      ⟨r.events ++ r2.events, r2.state, r2.broke⟩

/-- Outcome of an execution: the calls made and the value returned by `main`
(`none` while the loop is still running when the samples end). -/
structure Run where
  trace : List Event
  exitCode : Option Int

/-- Calls from `gpioInitialise` to the end of the configuration block. -/
def startup (w : World) : List Event :=
  [ Event.gpioInitialise w.gpio,
    Event.socket w.sock_descriptor,
    Event.setsockopt w.sock_descriptor,
    Event.i2cOpen w.handle ] ++ configure w.handle

/-- Calls after the loop has been left. -/
def shutdown (w : World) : List Event :=
  [Event.close w.sock_descriptor, Event.i2cClose w.handle, Event.gpioTerminate]

/-- State on entry to the loop: `ct = 0` and the zero-initialised global `buf`. -/
def initialState : LoopState := ⟨0, List.replicate 128 0⟩

/-- The function `main`, from `ct = 0` on. -/
def main (T : Target) (w : World) : Run :=
  if w.gpio < 0 then
    ⟨[Event.gpioInitialise w.gpio], some (-1)⟩
  else if w.sock_descriptor < 0 then
    ⟨[Event.gpioInitialise w.gpio, Event.socket w.sock_descriptor, Event.perror,
      Event.gpioTerminate], some (-2)⟩
  else
    let r := whileLoop T w.handle w.sock_descriptor initialState w.samples
    if r.broke then ⟨startup w ++ r.events ++ shutdown w, some 0⟩
    else ⟨startup w ++ r.events, none⟩

/-! ## Vocabulary of the specification -/

/-- Lowercase hexadecimal digits. -/
def isLowerHex (c : Char) : Bool := "0123456789abcdef".toList.contains c

/-- Two lowercase hexadecimal digits of a byte. -/
def hexByte (b : Nat) : Text := [Nat.digitChar (b / 16), Nat.digitChar (b % 16)]

/-- Sign-magnitude reading of the thermistor register pair as the specification
words it: magnitude `lowByte + ((highByte & 0x07) << 8)`, negated when bit 3 of
the high byte is set. -/
def decodeThermistorSpec (highByte lowByte : Nat) : Int :=
  let m := lowByte + ((highByte &&& 0x07) <<< 8)
  if highByte &&& 0x08 ≠ 0 then -(m : Int) else (m : Int)

/-- Payloads handed to `sendto`, in order. -/
def datagrams : List Event → List Text
  | [] => []
  | Event.sendto _ t _ _ :: es => t :: datagrams es
  | _ :: es => datagrams es

/-- Whether a sample makes the loop body read and send a frame. -/
def Sample.ready (w : Sample) : Bool := decide (w.status ≠ 0)

/-- Values of type `int`. -/
def isInt32 (v : Int) : Prop := -2147483648 ≤ v ∧ v < 2147483648

/-- Literal text of the header up to the frame counter. -/
def framePrefix : Text := "Device:AMG8833; Width:8; Height:8; Frame:".toList

/-- A sample with a non-zero status, an idle sensor image and a successful send. -/
def sampleReady : Sample :=
  ⟨1, fun _ => 0, 0x01, 0x90, ⟨126, 9, 30, 15, 7, 9⟩, 123456, 397⟩

/-- A sample whose status register reads zero. -/
def sampleIdle : Sample := { sampleReady with status := 0 }

/-- A sample with a non-zero status whose send fails. -/
def sampleSendFails : Sample := { sampleReady with send_status := -1 }

/-- Text appended for the pixel in row `y`, column `x`. -/
def pixelEntry (T : Target) (buf : List Nat) (y x : Nat) : Text :=
  appendPixel T buf y [] x

/-- The 64 entries in the order the loops produce them. -/
def pixelEntries (T : Target) (buf : List Nat) : List Text :=
  ((List.range 8).map (fun y => (List.range 8).map (pixelEntry T buf y))).flatten

/-- A buffer whose pixels are all the negative 12-bit code `0x800`. -/
def bufAllNegative : List Nat := (List.range 128).map (fun i => if i % 2 = 1 then 0x08 else 0x00)

/-- Sensor registers fetched by the block reads of a trace, in order. -/
def blockRegisters : List Event → List Nat
  | [] => []
  | Event.i2cReadI2CBlockData _ reg _ count :: es => List.range' reg count ++ blockRegisters es
  | _ :: es => blockRegisters es

/-- A sensor image whose register at address `r` holds the low byte of `r`. -/
def regsRamp : Nat → Nat := fun r => r % 256

/-- The part of the header after the literal "; Date:". -/
def dateTail (tm : Tm) (tv_usec : Int) : Text :=
  fmt_0d 4 (wrapInt32 (tm.tm_year + 1900)) ++
  "/".toList ++ fmt_0d 2 (wrapInt32 (tm.tm_mon + 1)) ++
  "/".toList ++ fmt_0d 2 tm.tm_mday ++
  " ".toList ++ fmt_0d 2 tm.tm_hour ++
  ":".toList ++ fmt_0d 2 tm.tm_min ++
  ":".toList ++ fmt_0d 2 tm.tm_sec ++
  ",".toList ++ fmt_0d 3 (toUint16 (Int.tdiv tv_usec 1000)) ++
  "; ThermalData:\r\n".toList

/-- Whether a sample makes the loop leave through `break`: a frame is read and its send fails. -/
def Sample.fails (w : Sample) : Bool := decide (w.status ≠ 0) && decide (w.send_status < 0)

/-- Closing of the socket. -/
def Event.isSocketClose : Event → Bool
  | Event.close _ => true
  | _ => false

/-- Closing of the bus handle. -/
def Event.isBusClose : Event → Bool
  | Event.i2cClose _ => true
  | _ => false

/-- Calls that touch the sensor bus or the network. -/
def Event.isBusOrSend : Event → Bool
  | Event.i2cWriteByteData _ _ _ => true
  | Event.i2cReadByteData _ _ _ => true
  | Event.i2cReadI2CBlockData _ _ _ _ => true
  | Event.sendto _ _ _ _ => true
  | _ => false

/-- Every occurrence in `tr` of an event satisfying `P` comes right after a block
of events satisfying `Q`. -/
def Guarded (P : Event → Bool) (Q : List Event → Prop) (tr : List Event) : Prop :=
  ∀ pre e post, tr = pre ++ e :: post → P e = true → ∃ pre2 g, Q g ∧ pre = pre2 ++ g

/-- First call of a frame read: the block read at register `0x80`. -/
def Event.startsFrameRead : Event → Bool
  | Event.i2cReadI2CBlockData _ reg _ _ => reg == 0x80
  | _ => false

/-- Calls of `sendto`. -/
def Event.isSendto : Event → Bool
  | Event.sendto _ _ _ _ => true
  | _ => false

/-- Register writes other than the flag clear `0x06` to register `0x05`. -/
def Event.isConfigWrite : Event → Bool
  | Event.i2cWriteByteData _ reg val => !(reg == 0x05 && val == 0x06)
  | _ => false

/-- A status poll on `handle` that returned a non-zero value. -/
def isReadyPoll (handle : Int) (g : List Event) : Prop :=
  ∃ v : Int, v ≠ 0 ∧ g = [Event.i2cReadByteData handle 0x04 v]

/-- The bus and clock calls of a pass whose status poll returned a non-zero value. -/
def isAcquisition (handle : Int) (g : List Event) : Prop :=
  ∃ x : Sample, x.status ≠ 0 ∧ g = acquireEvents handle x

/-- A run of 2147483649 frames, all sent successfully. -/
def longRun : World := ⟨0, 3, 0, List.replicate 2147483649 sampleReady⟩

/-- A run whose third frame cannot be sent; more samples would follow. -/
def thirdSendFails : World :=
  ⟨0, 3, 0, [sampleReady, sampleIdle, sampleReady, sampleSendFails, sampleReady]⟩

/-- A run whose first send fails. -/
def firstSendFails : World := ⟨0, 3, 0, [sampleSendFails]⟩

/-- Answers of a bus whose handle is invalid: every pigpio call returns the error
code `PI_BAD_HANDLE` (-25); the send succeeds. -/
def sampleBusDown : Sample := { sampleReady with status := -25, thermHigh := -25, thermLow := -25 }

/-- A run in which `i2cOpen` reports an error. -/
def busDown : World := ⟨0, 3, -25, [sampleBusDown]⟩

/-- Two frames sent with an idle poll in between. -/
def twoFrames : World := ⟨0, 3, 0, [sampleReady, sampleIdle, sampleReady]⟩

/-- Text the loop body sends from state `s` on the answers `w`. -/
def frameText (T : Target) (s : LoopState) (w : Sample) : Text :=
  encodeFrame T s.ct (thermistorTemp T w.thermHigh w.thermLow) w.tm w.tv_usec
    (readPixels w.regs s.buf)

/-! ## Theorems -/

/-! ### Appending loops -/

theorem foldl_append_flatten {β : Type} (f : β → Text) (l : List β) (init : Text) :
    l.foldl (fun acc a => acc ++ f a) init = init ++ (l.map f).flatten := by
  induction l generalizing init with
  | nil => simp
  | cons a l ih => simp [ih, List.append_assoc]

theorem appendPixel_eq (T : Target) (buf : List Nat) (y x : Nat) (acc : Text) :
    appendPixel T buf y acc x = acc ++ pixelEntry T buf y x := by
  simp [appendPixel, pixelEntry, List.append_assoc]

theorem appendPixels_eq (T : Target) (buf : List Nat) (sendText : Text) :
    appendPixels T buf sendText
      = sendText ++ ((pixelEntries T buf).flatten ++ ['\r', '\n']) := by
  have hstep : appendPixel T buf = fun y acc x => acc ++ pixelEntry T buf y x := by
    funext y acc x
    exact appendPixel_eq T buf y x acc
  have hout : (fun acc y => (List.range 8).foldl (appendPixel T buf y) acc)
      = fun acc y => acc ++ ((List.range 8).map (pixelEntry T buf y)).flatten := by
    funext acc y
    rw [hstep, foldl_append_flatten]
  unfold appendPixels pixelEntries
  rw [hout, foldl_append_flatten]
  simp [List.append_assoc, List.flatten_flatten]
  rfl

theorem pixelSection_eq (T : Target) (buf : List Nat) :
    pixelSection T buf = (pixelEntries T buf).flatten ++ ['\r', '\n'] := by
  simp [pixelSection, appendPixels_eq]

theorem pixelEntries_length (T : Target) (buf : List Nat) : (pixelEntries T buf).length = 64 := by
  simp [pixelEntries, List.length_flatten]
  rfl

/-! ### Bytes on the Raspberry Pi -/

set_option maxRecDepth 100000 in
theorem fmt_02x_byte : ∀ b < 256, fmt_02x ((b : Nat) : Int) = hexByte b := by decide

set_option maxRecDepth 100000 in
theorem digitChar_isLowerHex : ∀ d < 16, isLowerHex (Nat.digitChar d) = true := by decide

theorem bufAt_lt (buf : List Nat) (hbytes : ∀ b ∈ buf, b < 256) (i : Nat) : bufAt buf i < 256 := by
  unfold bufAt
  rw [List.getD_eq_getElem?_getD]
  cases h : buf[i]? with
  | none => simp
  | some b =>
    simp only [Option.getD_some]
    exact hbytes b (List.getElem?_mem h)

theorem pixelEntry_pi (buf : List Nat) (hbytes : ∀ b ∈ buf, b < 256) (y x : Nat) :
    pixelEntry raspberryPi buf y x
      = hexByte (bufAt buf (16 * y + 2 * x + 1)) ++ ',' :: (hexByte (bufAt buf (16 * y + 2 * x)) ++ [',']) := by
  have h1 : (y <<< 4) + (x <<< 1) = 16 * y + 2 * x := by
    simp [Nat.shiftLeft_eq]; omega
  simp only [pixelEntry, appendPixel, h1, charValue, raspberryPi, Bool.false_and, Bool.false_eq_true,
    if_false, List.nil_append]
  rw [fmt_02x_byte _ (bufAt_lt buf hbytes _), fmt_02x_byte _ (bufAt_lt buf hbytes _)]
  simp [hexByte]

theorem pixelEntries_mem (T : Target) (buf : List Nat) (e : Text) (he : e ∈ pixelEntries T buf) :
    ∃ y x, y < 8 ∧ x < 8 ∧ e = pixelEntry T buf y x := by
  simp only [pixelEntries, List.mem_flatten, List.mem_map, List.mem_range] at he
  obtain ⟨row, ⟨y, hy, rfl⟩, he⟩ := he
  simp only [List.mem_map, List.mem_range] at he
  obtain ⟨x, hx, rfl⟩ := he
  exact ⟨y, x, hy, hx, rfl⟩

theorem pixelEntries_shape_pi (buf : List Nat) (hbytes : ∀ b ∈ buf, b < 256) :
    ∀ e ∈ pixelEntries raspberryPi buf, ∃ a b c d, isLowerHex a = true ∧
      isLowerHex b = true ∧ isLowerHex c = true ∧ isLowerHex d = true ∧
      e = [a, b, ',', c, d, ','] := by
  intro e he
  obtain ⟨y, x, _, _, rfl⟩ := pixelEntries_mem _ _ _ he
  rw [pixelEntry_pi buf hbytes]
  have hhi := bufAt_lt buf hbytes (16 * y + 2 * x + 1)
  have hlo := bufAt_lt buf hbytes (16 * y + 2 * x)
  refine ⟨_, _, _, _, digitChar_isLowerHex _ ?_, digitChar_isLowerHex _ ?_,
    digitChar_isLowerHex _ ?_, digitChar_isLowerHex _ ?_, rfl⟩ <;> omega

theorem pixelSection_length_pi (buf : List Nat) (hbytes : ∀ b ∈ buf, b < 256) :
    (pixelSection raspberryPi buf).length = 386 := by
  rw [pixelSection_eq, List.length_append, List.length_flatten]
  have hsix : (pixelEntries raspberryPi buf).map List.length = List.replicate 64 6 := by
    rw [List.eq_replicate_iff]
    refine ⟨by simp [pixelEntries_length], ?_⟩
    intro n hn
    obtain ⟨e, he, rfl⟩ := List.mem_map.mp hn
    obtain ⟨a, b, c, d, _, _, _, _, rfl⟩ := pixelEntries_shape_pi buf hbytes e he
    rfl
  rw [hsix]
  simp

theorem bufAllNegative_bytes : ∀ b ∈ bufAllNegative, b < 256 := by
  intro b hb
  simp only [bufAllNegative, List.mem_map] at hb
  obtain ⟨i, _, rfl⟩ := hb
  split <;> decide

/-! ### C1 -/

/-- C1: on the Raspberry Pi target, for every content of the 128-byte pixel buffer
the text appended after the header is 64 entries `hh,ll,` of two lowercase
hexadecimal digits each, then one CRLF, 386 characters in all. -/
theorem pixel_section_shape (buf : List Nat) (_hlen : buf.length = 128)
    (hbytes : ∀ b ∈ buf, b < 256) :
    (∀ sendText, appendPixels raspberryPi buf sendText = sendText ++ pixelSection raspberryPi buf) ∧
    (∃ es : List Text, es.length = 64 ∧
      (∀ e ∈ es, ∃ a b c d, isLowerHex a = true ∧ isLowerHex b = true ∧ isLowerHex c = true ∧
        isLowerHex d = true ∧ e = [a, b, ',', c, d, ',']) ∧
      pixelSection raspberryPi buf = es.flatten ++ ['\r', '\n']) ∧
    (pixelSection raspberryPi buf).length = 64 * 6 + 2 := by
  refine ⟨?_, ⟨pixelEntries raspberryPi buf, pixelEntries_length _ _,
    pixelEntries_shape_pi buf hbytes, pixelSection_eq _ _⟩, pixelSection_length_pi buf hbytes⟩
  intro sendText
  rw [appendPixels_eq, pixelSection_eq]

/-- Witness for C1: the grid whose pixels are all the negative code `0x800`. -/
theorem pixel_section_shape_witness :
    bufAllNegative.length = 128 ∧ (pixelSection raspberryPi bufAllNegative).length = 64 * 6 + 2 :=
  ⟨by simp [bufAllNegative],
    (pixel_section_shape bufAllNegative (by simp [bufAllNegative]) bufAllNegative_bytes).2.2⟩

theorem flatten_drop_take (n : Nat) (es : List Text) (rest : Text) (h : ∀ e ∈ es, e.length = n)
    (k : Nat) (e : Text) (hk : es[k]? = some e) :
    ((es.flatten ++ rest).drop (n * k)).take n = e := by
  induction es generalizing k with
  | nil => simp at hk
  | cons a es ih =>
    have ha : a.length = n := h a (List.mem_cons_self _ _)
    cases k with
    | zero =>
      simp only [List.getElem?_cons_zero, Option.some.injEq] at hk
      subst hk
      simp [List.append_assoc, List.take_append_of_le_length, ha]
    | succ k =>
      simp only [List.getElem?_cons_succ] at hk
      have hrec := ih (fun e he => h e (List.mem_cons_of_mem _ he)) k hk
      have hdrop : (a ++ (es.flatten ++ rest)).drop n = es.flatten ++ rest := by
        rw [← ha]; exact List.drop_left _ _
      rw [List.flatten_cons, List.append_assoc, Nat.mul_succ, Nat.add_comm (n * k) n,
        ← List.drop_drop, hdrop]
      exact hrec

theorem pixelEntries_getElem? (T : Target) (buf : List Nat) (y x : Nat) (hy : y < 8) (hx : x < 8) :
    (pixelEntries T buf)[8 * y + x]? = some (pixelEntry T buf y x) := by
  interval_cases y <;> interval_cases x <;> rfl

theorem blockRead_length (regs : Nat → Nat) (reg : Nat) (buf : List Nat) (off count : Nat)
    (h : off + count ≤ buf.length) :
    (i2cReadI2CBlockData regs reg buf off count).length = buf.length := by
  simp [i2cReadI2CBlockData]
  omega

theorem blockRead_at (regs : Nat → Nat) (reg : Nat) (buf : List Nat) (off count : Nat)
    (h : off + count ≤ buf.length) (i : Nat) :
    bufAt (i2cReadI2CBlockData regs reg buf off count) i
      = if off ≤ i ∧ i < off + count then regs (reg + (i - off)) % 256 else bufAt buf i := by
  unfold bufAt i2cReadI2CBlockData
  simp only [List.getD_eq_getElem?_getD]
  have htake : (buf.take off).length = off := by simp; omega
  by_cases h1 : i < off
  · rw [List.append_assoc, List.getElem?_append_left (by omega)]
    simp only [List.getElem?_take, h1, if_true]
    rw [if_neg (by omega)]
  · by_cases h2 : i < off + count
    · rw [List.append_assoc, List.getElem?_append_right (by omega), htake,
        List.getElem?_append_left (by simp; omega)]
      simp [List.getElem?_map, List.getElem?_range, h2]
      have : i - off < count := by omega
      simp [List.getElem?_range, this]
      rw [if_pos (by omega)]
    · rw [List.getElem?_append_right (by simp; omega)]
      simp [h2]
      have : min off buf.length = off := by omega
      rw [this]
      have : off + count + (i - (off + count)) = i := by omega
      rw [this]

theorem readPixels_length (regs : Nat → Nat) (buf : List Nat) (hlen : buf.length = 128) :
    (readPixels regs buf).length = 128 := by
  unfold readPixels
  simp only []
  have l1 := blockRead_length regs 0x80 buf 0 32 (by omega)
  have l2 := blockRead_length regs 0xA0 _ 32 32
    (by omega : 32 + 32 ≤ (i2cReadI2CBlockData regs 0x80 buf 0 32).length)
  have l3 := blockRead_length regs 0xC0 _ 64 32
    (by omega : 64 + 32 ≤ (i2cReadI2CBlockData regs 0xA0
      (i2cReadI2CBlockData regs 0x80 buf 0 32) 32 32).length)
  rw [blockRead_length _ _ _ _ _ (by omega)]
  omega

theorem readPixels_at (regs : Nat → Nat) (buf : List Nat) (hlen : buf.length = 128)
    (i : Nat) (hi : i < 128) :
    bufAt (readPixels regs buf) i = regs (0x80 + i) % 256 := by
  unfold readPixels
  simp only []
  have l1 := blockRead_length regs 0x80 buf 0 32 (by omega)
  have l2 := blockRead_length regs 0xA0 _ 32 32 (by omega : 32 + 32 ≤ (i2cReadI2CBlockData regs 0x80 buf 0 32).length)
  have l3 := blockRead_length regs 0xC0 _ 64 32 (by omega : 64 + 32 ≤ (i2cReadI2CBlockData regs 0xA0 (i2cReadI2CBlockData regs 0x80 buf 0 32) 32 32).length)
  rw [blockRead_at _ _ _ _ _ (by omega), blockRead_at _ _ _ _ _ (by omega),
    blockRead_at _ _ _ _ _ (by omega), blockRead_at _ _ _ _ _ (by omega)]
  by_cases h1 : 96 ≤ i
  · rw [if_pos ⟨h1, by omega⟩]; congr 2; omega
  · rw [if_neg (by omega)]
    by_cases h2 : 64 ≤ i
    · rw [if_pos ⟨h2, by omega⟩]; congr 2; omega
    · rw [if_neg (by omega)]
      by_cases h3 : 32 ≤ i
      · rw [if_pos ⟨h3, by omega⟩]; congr 2; omega
      · rw [if_neg (by omega), if_pos ⟨by omega, by omega⟩, Nat.sub_zero]


theorem readPixels_bytes (regs : Nat → Nat) (buf : List Nat) (hlen : buf.length = 128) :
    ∀ v ∈ readPixels regs buf, v < 256 := by
  intro v hv
  obtain ⟨n, hn⟩ := List.getElem?_of_mem hv
  have hn128 : n < 128 := by
    have := (List.getElem?_eq_some_iff.mp hn).1
    rwa [readPixels_length regs buf hlen] at this
  have h2 := readPixels_at regs buf hlen n hn128
  unfold bufAt at h2
  rw [List.getD_eq_getElem?_getD, hn] at h2
  simp only [Option.getD_some] at h2
  rw [h2]
  exact Nat.mod_lt _ (by decide)

theorem take_two_of_six (l : Text) (a b c d e f : Char) (h : l.take 6 = [a, b, c, d, e, f]) :
    l.take 2 = [a, b] ∧ (l.drop 3).take 2 = [d, e] := by
  have hl : l = [a, b, c, d, e, f] ++ l.drop 6 := by
    rw [← h]; exact (List.take_append_drop 6 l).symm
  rw [hl]
  simp

/-! ### C2 -/

/-- C2: the four block reads fetch registers `0x80 .. 0xFF` once each and leave
register `0x80 + i` at buffer index `i`; on the Raspberry Pi target entry
`8*y + x` of the pixel section is the byte at index `16*y + 2*x + 1` followed by
the byte at index `16*y + 2*x`, both as raw two-digit hexadecimal, so that every
pixel register occupies exactly one field of the output. -/
theorem pixel_entry_layout (regs : Nat → Nat) (hregs : ∀ r, regs r < 256)
    (buf0 : List Nat) (hlen : buf0.length = 128)
    (buf : List Nat) (hbytes : ∀ b ∈ buf, b < 256) (handle : Int) (w : Sample) :
    blockRegisters (acquireEvents handle w) = List.range' 0x80 128 ∧
    (readPixels regs buf0).length = 128 ∧
    (∀ i < 128, bufAt (readPixels regs buf0) i = regs (0x80 + i)) ∧
    (∀ y < 8, ∀ x < 8,
      ((pixelSection raspberryPi buf).drop (6 * (8 * y + x))).take 6
        = hexByte (bufAt buf (16 * y + 2 * x + 1)) ++
            ',' :: (hexByte (bufAt buf (16 * y + 2 * x)) ++ [','])) ∧
    (∀ i < 128,
      ((pixelSection raspberryPi (readPixels regs buf0)).drop
          (6 * (i / 2) + (if i % 2 = 1 then 0 else 3))).take 2
        = hexByte (regs (0x80 + i))) := by
  have hat : ∀ i < 128, bufAt (readPixels regs buf0) i = regs (0x80 + i) := by
    intro i hi
    rw [readPixels_at regs buf0 hlen i hi]
    exact Nat.mod_eq_of_lt (hregs _)
  have hentry : ∀ (b : List Nat), (∀ v ∈ b, v < 256) → ∀ y < 8, ∀ x < 8,
      ((pixelSection raspberryPi b).drop (6 * (8 * y + x))).take 6
        = hexByte (bufAt b (16 * y + 2 * x + 1)) ++
            ',' :: (hexByte (bufAt b (16 * y + 2 * x)) ++ [',']) := by
    intro b hb y hy x hx
    rw [pixelSection_eq, ← pixelEntry_pi b hb]
    apply flatten_drop_take 6 _ _ _ _ _ (pixelEntries_getElem? _ _ y x hy hx)
    intro e he
    obtain ⟨y2, x2, _, _, rfl⟩ := pixelEntries_mem _ _ _ he
    rw [pixelEntry_pi b hb]
    rfl
  have hread := readPixels_bytes regs buf0 hlen
  refine ⟨rfl, readPixels_length regs buf0 hlen, hat, hentry buf hbytes, ?_⟩
  intro i hi
  have hy : i / 16 < 8 := by omega
  have hx : i % 16 / 2 < 8 := by omega
  have h6 := hentry _ hread (i / 16) hy (i % 16 / 2) hx
  have hk : 8 * (i / 16) + i % 16 / 2 = i / 2 := by omega
  rw [hk] at h6
  simp only [hexByte, List.cons_append, List.nil_append] at h6
  obtain ⟨hfirst, hsecond⟩ := take_two_of_six _ _ _ _ _ _ _ h6
  by_cases hodd : i % 2 = 1
  · rw [if_pos hodd, Nat.add_zero, hfirst]
    have : 16 * (i / 16) + 2 * (i % 16 / 2) + 1 = i := by omega
    rw [this, hat i hi]
    rfl
  · rw [if_neg hodd, ← List.drop_drop, hsecond]
    have : 16 * (i / 16) + 2 * (i % 16 / 2) = i := by omega
    rw [this, hat i hi]
    rfl

/-- Witness for C2: a ramp in the sensor registers read into the zeroed buffer,
and the last entry of the grid whose pixels are all `0x800`. -/
theorem pixel_entry_layout_witness :
    bufAt (readPixels regsRamp (List.replicate 128 0)) 5 = regsRamp (0x80 + 5) ∧
    ((pixelSection raspberryPi bufAllNegative).drop (6 * (8 * 7 + 7))).take 6
      = hexByte (bufAt bufAllNegative 127) ++ ',' :: (hexByte (bufAt bufAllNegative 126) ++ [',']) :=
  have h := pixel_entry_layout regsRamp (fun r => Nat.mod_lt r (by decide))
    (List.replicate 128 0) (by simp) bufAllNegative bufAllNegative_bytes 0 sampleReady
  ⟨h.2.2.1 5 (by decide), h.2.2.2.1 7 (by decide) 7 (by decide)⟩

/-! ### Lengths and shapes of the printf conversions -/

theorem padLeft_length (w : Nat) (c : Char) (s : Text) : (padLeft w c s).length = max w s.length := by
  simp [padLeft]; omega

theorem toDigits_length_le (n e : Nat) (h : n < 10 ^ e) (he : 0 < e) :
    (Nat.toDigits 10 n).length ≤ e :=
  Nat.toDigitsCore_length 10 (by decide) (n + 1) n e h he

theorem toDigits_length_pos (b n : Nat) : 0 < (Nat.toDigits b n).length := by
  unfold Nat.toDigits
  rw [Nat.toDigitsCore]
  split
  · simp
  · rw [Nat.toDigitsCore_lens_eq]; omega

theorem fmt_d_length (v : Int) (hv : isInt32 v) : (fmt_d v).length ≤ 11 := by
  have hn : v.natAbs < 10 ^ 10 := by unfold isInt32 at hv; omega
  have := toDigits_length_le _ 10 hn (by decide)
  unfold fmt_d
  split <;> simp <;> omega

theorem fmt_0d_length (w : Nat) (hw : w ≤ 11) (v : Int) (hv : isInt32 v) :
    (fmt_0d w v).length ≤ 11 := by
  have hn : v.natAbs < 10 ^ 10 := by unfold isInt32 at hv; omega
  have := toDigits_length_le _ 10 hn (by decide)
  unfold fmt_0d
  split <;> simp [padLeft_length] <;> omega

theorem wrapInt32_isInt32 (v : Int) : isInt32 (wrapInt32 v) := by
  unfold isInt32 wrapInt32; omega

theorem wrapInt32_of_isInt32 (v : Int) (hv : isInt32 v) : wrapInt32 v = v := by
  unfold isInt32 at hv; unfold wrapInt32; omega

theorem toUint16_isInt32 (v : Int) : isInt32 (toUint16 v) := by
  unfold isInt32 toUint16; omega

set_option maxRecDepth 100000 in
theorem two_digits : ∀ m < 100,
    padLeft 2 '0' (Nat.toDigits 10 m) = [Nat.digitChar (m / 10), Nat.digitChar (m % 10)] := by
  decide

theorem roundHundredths_near (t : Int) :
    16 * roundHundredths t 16 ≤ 100 * t.natAbs + 8 ∧
    100 * t.natAbs ≤ 16 * roundHundredths t 16 + 8 := by
  unfold roundHundredths
  simp only []
  split <;> omega

theorem fmt_5_2f_shape (t : Int) :
    fmt_5_2f t 16 = padLeft 5 ' ' ((if t < 0 then ['-'] else []) ++
      Nat.toDigits 10 (roundHundredths t 16 / 100) ++
      ['.', Nat.digitChar (roundHundredths t 16 % 100 / 10),
        Nat.digitChar (roundHundredths t 16 % 10)]) := by
  unfold fmt_5_2f
  simp only []
  rw [two_digits _ (Nat.mod_lt _ (by decide))]
  have : roundHundredths t 16 % 100 % 10 = roundHundredths t 16 % 10 := by omega
  rw [this]
  split <;> simp

theorem fmt_5_2f_length (t : Int) (ht : isInt32 t) : (fmt_5_2f t 16).length ≤ 13 := by
  have hn := roundHundredths_near t
  have hr : roundHundredths t 16 / 100 < 10 ^ 9 := by unfold isInt32 at ht; omega
  have := toDigits_length_le _ 9 hr (by decide)
  rw [fmt_5_2f_shape, padLeft_length]
  split <;> simp <;> omega

theorem header_length (ct temp : Int) (tm : Tm) (tv_usec : Int) (hct : isInt32 ct)
    (htemp : isInt32 temp) (hmday : isInt32 tm.tm_mday) (hhour : isInt32 tm.tm_hour)
    (hmin : isInt32 tm.tm_min) (hsec : isInt32 tm.tm_sec) :
    (header ct temp tm tv_usec).length ≤ 185 := by
  have h1 := fmt_d_length ct hct
  have h2 := fmt_5_2f_length temp htemp
  have h3 := fmt_0d_length 4 (by decide) _ (wrapInt32_isInt32 (tm.tm_year + 1900))
  have h4 := fmt_0d_length 2 (by decide) _ (wrapInt32_isInt32 (tm.tm_mon + 1))
  have h5 := fmt_0d_length 2 (by decide) _ hmday
  have h6 := fmt_0d_length 2 (by decide) _ hhour
  have h7 := fmt_0d_length 2 (by decide) _ hmin
  have h8 := fmt_0d_length 2 (by decide) _ hsec
  have h9 := fmt_0d_length 3 (by decide) _ (toUint16_isInt32 (Int.tdiv tv_usec 1000))
  unfold header
  have e1 : "Device:AMG8833; Width:8; Height:8; Frame:".toList.length = 41 := rfl
  have e2 : "; Thermistor: ".toList.length = 14 := rfl
  have e3 : "; Date:".toList.length = 7 := rfl
  have e4 : "/".toList.length = 1 := rfl
  have e5 : " ".toList.length = 1 := rfl
  have e6 : ":".toList.length = 1 := rfl
  have e7 : ",".toList.length = 1 := rfl
  have e8 : "; ThermalData:\r\n".toList.length = 16 := rfl
  simp only [List.length_append, e1, e2, e3, e4, e5, e6, e7, e8]
  omega


/-! ### Thermistor code -/

theorem toByte_lt (v : Int) : toByte v < 256 := by
  unfold toByte; omega

theorem toByte_natCast (n : Nat) (h : n < 256) : toByte (n : Int) = n := by
  unfold toByte; omega

theorem thermistorTemp_pi (readHigh readLow : Int) :
    thermistorTemp raspberryPi readHigh readLow
      = ((toByte readLow + ((toByte readHigh &&& 0x07) <<< 8) : Nat) : Int) := by
  have hb := toByte_lt readHigh
  have hu : toUnsigned32 ((toByte readHigh : Nat) : Int) = toByte readHigh := by
    unfold toUnsigned32; omega
  simp only [thermistorTemp, charValue, raspberryPi, Bool.false_and, Bool.false_eq_true, if_false, hu]
  push_cast
  rfl

theorem thermistorTemp_range (readHigh readLow : Int) :
    0 ≤ thermistorTemp raspberryPi readHigh readLow ∧
    thermistorTemp raspberryPi readHigh readLow ≤ 2047 := by
  rw [thermistorTemp_pi]
  have h1 := toByte_lt readLow
  have h2 : toByte readHigh &&& 0x07 ≤ 7 := Nat.and_le_right
  rw [Nat.shiftLeft_eq]
  constructor <;> omega

/-- On the Raspberry Pi target the computed code is the magnitude of the
sign-magnitude reading, whatever the sign bit. -/
theorem thermistorTemp_magnitude (highByte lowByte : Nat) (hh : highByte < 256) (hl : lowByte < 256) :
    thermistorTemp raspberryPi highByte lowByte
      = if highByte &&& 0x08 ≠ 0 then -decodeThermistorSpec highByte lowByte
        else decodeThermistorSpec highByte lowByte := by
  rw [thermistorTemp_pi, toByte_natCast _ hh, toByte_natCast _ hl]
  unfold decodeThermistorSpec
  simp only []
  split <;> simp

/-! ### C5 -/

/-- C5 (failing input): with high byte 0x08 (sign bit set) and low byte 0x01 the
program computes the code 1, where the sign-magnitude reading of the register
pair is -1. -/
theorem thermistor_sign_bit_ignored :
    thermistorTemp raspberryPi 0x08 0x01 = 1 ∧ decodeThermistorSpec 0x08 0x01 = -1 := by
  decide

/-! ### C4 -/

set_option maxRecDepth 100000 in
theorem pixelSection_zero :
    pixelSection raspberryPi (List.replicate 128 0)
      = (List.replicate 64 "00,00,".toList).flatten ++ "\r\n".toList := by
  decide

/-- C4: the header carries, right after the literal "Thermistor: ", the value
`temp / 16` rounded to the nearest hundredth, written with a sign when negative,
the integer part, a point and exactly two decimals, right-aligned in at least
five characters; the reading with counter 0, code 400 and an all-zero grid gives
"Frame:0; Thermistor: 25.00;" and 64 pairs "00,00,". -/
theorem thermistor_field (ct temp : Int) (tm : Tm) (tv_usec : Int) :
    (∃ (field rest : Text) (h : Nat),
      header ct temp tm tv_usec
        = framePrefix ++ fmt_d ct ++ "; Thermistor: ".toList ++ field ++ "; Date:".toList ++ rest ∧
      |(h : ℚ) / 100 - |(temp : ℚ)| * 0.0625| ≤ 0.005 ∧
      field = padLeft 5 ' ' ((if temp < 0 then ['-'] else []) ++ Nat.toDigits 10 (h / 100) ++
        ['.', Nat.digitChar (h % 100 / 10), Nat.digitChar (h % 10)]) ∧
      5 ≤ field.length) ∧
    (∃ pre mid : Text,
      encodeFrame raspberryPi 0 400 tm tv_usec (List.replicate 128 0)
        = pre ++ "Frame:0; Thermistor: 25.00;".toList ++ mid ++
            (List.replicate 64 "00,00,".toList).flatten ++ "\r\n".toList) := by
  constructor
  · refine ⟨fmt_5_2f temp 16, dateTail tm tv_usec, roundHundredths temp 16, ?_, ?_,
      fmt_5_2f_shape temp, ?_⟩
    · simp only [header, dateTail, framePrefix, List.append_assoc]
    · obtain ⟨h1, h2⟩ := roundHundredths_near temp
      have habs : |(temp : ℚ)| = ((temp.natAbs : ℕ) : ℚ) := by
        rw [Nat.cast_natAbs, Int.cast_abs]
      rw [habs, abs_le]
      have h1q : (16 : ℚ) * (roundHundredths temp 16 : ℚ) ≤ 100 * (temp.natAbs : ℚ) + 8 := by
        exact_mod_cast h1
      have h2q : (100 : ℚ) * (temp.natAbs : ℚ) ≤ 16 * (roundHundredths temp 16 : ℚ) + 8 := by
        exact_mod_cast h2
      constructor <;> norm_num <;> linarith
    · rw [fmt_5_2f_shape, padLeft_length]
      exact Nat.le_max_left _ _
  · refine ⟨"Device:AMG8833; Width:8; Height:8; ".toList, " Date:".toList ++ dateTail tm tv_usec, ?_⟩
    have hsec := pixelSection_zero
    have hd : fmt_d 0 = ['0'] := by decide
    have hf : fmt_5_2f 400 16 = "25.00".toList := by decide
    rw [encodeFrame, appendPixels_eq, ← pixelSection_eq, hsec]
    simp only [header, dateTail, hd, hf, List.append_assoc]
    rfl

/-! ### The loop body -/

theorem loopBody_idle (T : Target) (handle fd : Int) (s : LoopState) (w : Sample)
    (h : w.status = 0) :
    loopBody T handle fd s w
      = ⟨[Event.i2cReadByteData handle 0x04 0, Event.usleep 10000], s, false⟩ := by
  simp [loopBody, h]

theorem loopBody_fail (T : Target) (handle fd : Int) (s : LoopState) (w : Sample)
    (h : w.status ≠ 0) (hs : w.send_status < 0) :
    loopBody T handle fd s w
      = ⟨acquireEvents handle w ++
          [Event.sendto fd (frameText T s w) (sendLength (frameText T s w)) w.send_status,
            Event.perror],
         ⟨s.ct, readPixels w.regs s.buf⟩, true⟩ := by
  simp [loopBody, frameText, h, hs]

theorem loopBody_sent (T : Target) (handle fd : Int) (s : LoopState) (w : Sample)
    (h : w.status ≠ 0) (hs : 0 ≤ w.send_status) :
    loopBody T handle fd s w
      = ⟨acquireEvents handle w ++
          [Event.sendto fd (frameText T s w) (sendLength (frameText T s w)) w.send_status],
         ⟨wrapInt32 (s.ct + 1), readPixels w.regs s.buf⟩, false⟩ := by
  have : ¬ w.send_status < 0 := by omega
  simp [loopBody, frameText, h, this]

theorem loopBody_sendto (T : Target) (handle fd : Int) (s : LoopState) (w : Sample)
    (fd2 : Int) (sendText : Text) (len : Nat) (ret : Int)
    (hmem : Event.sendto fd2 sendText len ret ∈ (loopBody T handle fd s w).events) :
    sendText = frameText T s w ∧ len = sendLength sendText := by
  by_cases h : w.status = 0
  · rw [loopBody_idle T handle fd s w h] at hmem
    simp at hmem
  · by_cases hs : w.send_status < 0
    · rw [loopBody_fail T handle fd s w h hs] at hmem
      simp only [acquireEvents, List.cons_append, List.nil_append, List.mem_cons,
        Event.sendto.injEq, List.mem_nil_iff, or_false, false_or, reduceCtorEq] at hmem
      obtain ⟨-, h1, h2, -⟩ := hmem
      rw [h2, h1]
      exact ⟨rfl, rfl⟩
    · rw [loopBody_sent T handle fd s w h (by omega)] at hmem
      simp only [acquireEvents, List.cons_append, List.nil_append, List.mem_cons,
        Event.sendto.injEq, List.mem_nil_iff, or_false, false_or, reduceCtorEq] at hmem
      obtain ⟨-, h1, h2, -⟩ := hmem
      rw [h2, h1]
      exact ⟨rfl, rfl⟩

/-! ### C10 -/

theorem encodeFrame_length (ct temp : Int) (tm : Tm) (tv_usec : Int) (buf : List Nat)
    (hct : isInt32 ct) (htemp : isInt32 temp) (hmday : isInt32 tm.tm_mday)
    (hhour : isInt32 tm.tm_hour) (hmin : isInt32 tm.tm_min) (hsec : isInt32 tm.tm_sec)
    (hbytes : ∀ b ∈ buf, b < 256) :
    (encodeFrame raspberryPi ct temp tm tv_usec buf).length ≤ 571 := by
  have h1 := header_length ct temp tm tv_usec hct htemp hmday hhour hmin hsec
  have h2 := pixelSection_length_pi buf hbytes
  rw [encodeFrame, appendPixels_eq, ← pixelSection_eq, List.length_append]
  omega

theorem thermistorTemp_isInt32 (readHigh readLow : Int) :
    isInt32 (thermistorTemp raspberryPi readHigh readLow) := by
  have := thermistorTemp_range readHigh readLow
  unfold isInt32; omega

/-- C10: on the Raspberry Pi target, for every `int` counter, every `int`
thermistor code, every broken-down time and every content of the pixel buffer,
the encoded text plus its NUL is at most 1024 bytes; and the count the loop body
passes to `sendto` is that length, `strlen + 1`, for the thermistor code it
computed and the buffer it read. -/
theorem frame_fits_buffer (ct temp : Int) (tm : Tm) (tv_usec : Int) (buf : List Nat)
    (hct : isInt32 ct) (htemp : isInt32 temp) (hmday : isInt32 tm.tm_mday)
    (hhour : isInt32 tm.tm_hour) (hmin : isInt32 tm.tm_min) (hsec : isInt32 tm.tm_sec)
    (hlen : buf.length = 128) (hbytes : ∀ b ∈ buf, b < 256) :
    sendLength (encodeFrame raspberryPi ct temp tm tv_usec buf) ≤ 1024 ∧
    (∀ (handle fd : Int) (w : Sample) (fd2 : Int) (sendText : Text) (len : Nat) (ret : Int),
      w.tm = tm → Event.sendto fd2 sendText len ret ∈
        (loopBody raspberryPi handle fd ⟨ct, buf⟩ w).events →
      len = sendText.length + 1 ∧ len ≤ 1024) := by
  constructor
  · have := encodeFrame_length ct temp tm tv_usec buf hct htemp hmday hhour hmin hsec hbytes
    unfold sendLength; omega
  · intro handle fd w fd2 sendText len ret htm hmem
    have hb := readPixels_bytes w.regs buf hlen
    have hlenf := encodeFrame_length ct (thermistorTemp raspberryPi w.thermHigh w.thermLow) w.tm
      w.tv_usec (readPixels w.regs buf) hct (thermistorTemp_isInt32 _ _) (htm ▸ hmday)
      (htm ▸ hhour) (htm ▸ hmin) (htm ▸ hsec) hb
    obtain ⟨h1, h2⟩ := loopBody_sendto _ _ _ _ _ _ _ _ _ hmem
    rw [h2, h1, frameText]
    dsimp only
    unfold sendLength
    exact ⟨rfl, by omega⟩

/-- Witness for C10: frame 0 of an all-zero grid at code 400. -/
theorem frame_fits_buffer_witness :
    sendLength (encodeFrame raspberryPi 0 400 sampleReady.tm 123456 (List.replicate 128 0)) ≤ 1024 :=
  (frame_fits_buffer 0 400 sampleReady.tm 123456 (List.replicate 128 0)
    ⟨by decide, by decide⟩ ⟨by decide, by decide⟩ ⟨by decide, by decide⟩ ⟨by decide, by decide⟩
    ⟨by decide, by decide⟩ ⟨by decide, by decide⟩ (by simp) (by simp)).1


/-! ### The loop -/

theorem whileLoop_nil (T : Target) (handle fd : Int) (s : LoopState) :
    whileLoop T handle fd s [] = ⟨[], s, false⟩ := rfl

theorem whileLoop_cons_broke (T : Target) (handle fd : Int) (s : LoopState) (w : Sample)
    (ws : List Sample) (h : (loopBody T handle fd s w).broke = true) :
    whileLoop T handle fd s (w :: ws) = loopBody T handle fd s w := by
  simp [whileLoop, h]

theorem whileLoop_cons_next (T : Target) (handle fd : Int) (s : LoopState) (w : Sample)
    (ws : List Sample) (h : (loopBody T handle fd s w).broke = false) :
    whileLoop T handle fd s (w :: ws)
      = ⟨(loopBody T handle fd s w).events ++
            (whileLoop T handle fd (loopBody T handle fd s w).state ws).events,
          (whileLoop T handle fd (loopBody T handle fd s w).state ws).state,
          (whileLoop T handle fd (loopBody T handle fd s w).state ws).broke⟩ := by
  simp [whileLoop, h]

theorem datagrams_append (a b : List Event) : datagrams (a ++ b) = datagrams a ++ datagrams b := by
  induction a with
  | nil => rfl
  | cons e a ih => cases e <;> simp [datagrams, ih]

theorem datagrams_acquire (handle : Int) (w : Sample) : datagrams (acquireEvents handle w) = [] := rfl

theorem header_frame (ct temp : Int) (tm : Tm) (tv_usec : Int) :
    header ct temp tm tv_usec = framePrefix ++ fmt_d ct ++ "; Thermistor: ".toList ++
      (fmt_5_2f temp 16 ++ "; Date:".toList ++ dateTail tm tv_usec) := by
  simp only [header, dateTail, framePrefix, List.append_assoc]

theorem encodeFrame_frame (T : Target) (ct temp : Int) (tm : Tm) (tv_usec : Int) (buf : List Nat) :
    ∃ rest, encodeFrame T ct temp tm tv_usec buf
      = framePrefix ++ fmt_d ct ++ "; Thermistor: ".toList ++ rest := by
  refine ⟨fmt_5_2f temp 16 ++ "; Date:".toList ++ dateTail tm tv_usec ++
    ((pixelEntries T buf).flatten ++ ['\r', '\n']), ?_⟩
  rw [encodeFrame, appendPixels_eq, header_frame]
  simp only [List.append_assoc]

theorem wrapInt32_succ (c : Int) (j : Nat) :
    wrapInt32 (wrapInt32 (c + 1) + j) = wrapInt32 (c + (j + 1 : Nat)) := by
  unfold wrapInt32; push_cast; omega

/-- Datagram number `j` of the loop started with counter `c` carries counter `c + j`, wrapped. -/
theorem loop_datagram_counter (T : Target) (handle fd : Int) (ws : List Sample) :
    ∀ (s : LoopState) (j : Nat) (d : Text), isInt32 s.ct →
      (datagrams (whileLoop T handle fd s ws).events)[j]? = some d →
      ∃ rest, d = framePrefix ++ fmt_d (wrapInt32 (s.ct + j)) ++ "; Thermistor: ".toList ++ rest := by
  induction ws with
  | nil => intro s j d _ h; simp [whileLoop_nil, datagrams] at h
  | cons w ws ih =>
    intro s j d hs h
    by_cases h0 : w.status = 0
    · rw [whileLoop_cons_next _ _ _ _ _ _ (by rw [loopBody_idle _ _ _ _ _ h0]),
        loopBody_idle _ _ _ _ _ h0] at h
      simp only [datagrams_append, datagrams, List.nil_append] at h
      exact ih s j d hs h
    · have hfirst : ∃ rest, frameText T s w
          = framePrefix ++ fmt_d (wrapInt32 (s.ct + (0 : Nat))) ++ "; Thermistor: ".toList ++ rest := by
        simp only [Nat.cast_zero, add_zero, wrapInt32_of_isInt32 _ hs, frameText]
        exact encodeFrame_frame _ _ _ _ _ _
      by_cases hf : w.send_status < 0
      · rw [whileLoop_cons_broke _ _ _ _ _ _ (by rw [loopBody_fail _ _ _ _ _ h0 hf]),
          loopBody_fail _ _ _ _ _ h0 hf] at h
        simp only [datagrams_append, datagrams_acquire, datagrams, List.nil_append] at h
        cases j with
        | zero =>
          simp only [List.getElem?_cons_zero, Option.some.injEq] at h
          rw [← h]; exact hfirst
        | succ j => simp at h
      · rw [whileLoop_cons_next _ _ _ _ _ _ (by rw [loopBody_sent _ _ _ _ _ h0 (by omega)]),
          loopBody_sent _ _ _ _ _ h0 (by omega)] at h
        simp only [datagrams_append, datagrams_acquire, datagrams, List.nil_append,
          List.cons_append] at h
        cases j with
        | zero =>
          simp only [List.getElem?_cons_zero, Option.some.injEq] at h
          rw [← h]; exact hfirst
        | succ j =>
          simp only [List.getElem?_cons_succ] at h
          obtain ⟨rest, hrest⟩ := ih _ j d (wrapInt32_isInt32 _) h
          refine ⟨rest, ?_⟩
          rw [hrest]
          simp only [wrapInt32_succ]


theorem loopBody_broke_iff (T : Target) (handle fd : Int) (s : LoopState) (w : Sample) :
    (loopBody T handle fd s w).broke = w.fails := by
  by_cases h0 : w.status = 0
  · rw [loopBody_idle _ _ _ _ _ h0]; simp [Sample.fails, h0]
  · by_cases hf : w.send_status < 0
    · rw [loopBody_fail _ _ _ _ _ h0 hf]; simp [Sample.fails, h0, hf]
    · rw [loopBody_sent _ _ _ _ _ h0 (by omega)]; simp [Sample.fails, h0, hf]

theorem loopBody_datagrams_length (T : Target) (handle fd : Int) (s : LoopState) (w : Sample) :
    (datagrams (loopBody T handle fd s w).events).length = if w.ready then 1 else 0 := by
  by_cases h0 : w.status = 0
  · rw [loopBody_idle _ _ _ _ _ h0]; simp [Sample.ready, h0, datagrams]
  · by_cases hf : w.send_status < 0
    · rw [loopBody_fail _ _ _ _ _ h0 hf]
      simp [Sample.ready, h0, datagrams, datagrams_append, datagrams_acquire]
    · rw [loopBody_sent _ _ _ _ _ h0 (by omega)]
      simp [Sample.ready, h0, datagrams, datagrams_append, datagrams_acquire]

/-- Without a failing send the loop is still running when the samples end, and
has sent one datagram for each sample with a non-zero status. -/
theorem loop_no_fail (T : Target) (handle fd : Int) (ws : List Sample) :
    ∀ s : LoopState, (∀ x ∈ ws, x.fails = false) →
      (whileLoop T handle fd s ws).broke = false ∧
      (datagrams (whileLoop T handle fd s ws).events).length
        = (ws.filter Sample.ready).length := by
  induction ws with
  | nil => intro s _; simp [whileLoop_nil, datagrams]
  | cons w ws ih =>
    intro s h
    have hw : (loopBody T handle fd s w).broke = false := by
      rw [loopBody_broke_iff]; exact h w (List.mem_cons_self _ _)
    obtain ⟨h1, h2⟩ := ih (loopBody T handle fd s w).state
      (fun x hx => h x (List.mem_cons_of_mem _ hx))
    rw [whileLoop_cons_next _ _ _ _ _ _ hw]
    refine ⟨h1, ?_⟩
    simp only [datagrams_append, List.length_append, h2, loopBody_datagrams_length, List.filter_cons]
    split <;> simp
    omega

theorem main_started (T : Target) (w : World) (hgpio : 0 ≤ w.gpio) (hsock : 0 ≤ w.sock_descriptor) :
    main T w
      = if (whileLoop T w.handle w.sock_descriptor initialState w.samples).broke then
          ⟨startup w ++ (whileLoop T w.handle w.sock_descriptor initialState w.samples).events
            ++ shutdown w, some 0⟩
        else
          ⟨startup w ++ (whileLoop T w.handle w.sock_descriptor initialState w.samples).events,
            none⟩ := by
  have h1 : ¬ w.gpio < 0 := by omega
  have h2 : ¬ w.sock_descriptor < 0 := by omega
  simp [main, h1, h2]

theorem main_datagrams (T : Target) (w : World) (hgpio : 0 ≤ w.gpio)
    (hsock : 0 ≤ w.sock_descriptor) :
    datagrams (main T w).trace
      = datagrams (whileLoop T w.handle w.sock_descriptor initialState w.samples).events := by
  rw [main_started T w hgpio hsock]
  have hs : datagrams (startup w) = [] := rfl
  have he : datagrams (shutdown w) = [] := rfl
  split <;> simp [datagrams_append, hs, he]

theorem fmt_d_nat (k : Nat) : fmt_d (k : Int) = Nat.toDigits 10 k := by
  have : ¬ ((k : Int) < 0) := by omega
  simp [fmt_d, this]

/-! ### C3 -/

/-- C3 (amended): the counter starts at 0; datagram number `k` of a run, for
`k < 2^31`, carries the decimal rendering of `k` as its Frame field; a run
without a failed send emits one datagram per non-zero status; the counter is
unchanged by a pass whose status is zero and goes up by one after a successful
send as long as it is below `INT_MAX`. -/
theorem frame_counter (T : Target) (w : World) (hgpio : 0 ≤ w.gpio)
    (hsock : 0 ≤ w.sock_descriptor) :
    initialState.ct = 0 ∧
    (∀ (k : Nat) (d : Text), k < 2147483648 → (datagrams (main T w).trace)[k]? = some d →
      ∃ rest, d = framePrefix ++ Nat.toDigits 10 k ++ "; Thermistor: ".toList ++ rest) ∧
    ((∀ x ∈ w.samples, x.fails = false) →
      (datagrams (main T w).trace).length = (w.samples.filter Sample.ready).length) ∧
    (∀ (handle fd : Int) (s : LoopState) (x : Sample), x.status = 0 →
      (loopBody T handle fd s x).state.ct = s.ct) ∧
    (∀ (handle fd : Int) (s : LoopState) (x : Sample), x.status ≠ 0 → 0 ≤ x.send_status →
      isInt32 s.ct → s.ct < 2147483647 → (loopBody T handle fd s x).state.ct = s.ct + 1) := by
  refine ⟨rfl, ?_, ?_, ?_, ?_⟩
  · intro k d hk hd
    rw [main_datagrams T w hgpio hsock] at hd
    obtain ⟨rest, hrest⟩ := loop_datagram_counter T _ _ _ initialState k d ⟨by decide, by decide⟩ hd
    refine ⟨rest, ?_⟩
    have hwrap : wrapInt32 (initialState.ct + (k : Int)) = (k : Int) := by
      have : initialState.ct = 0 := rfl
      rw [this]; unfold wrapInt32; omega
    rw [hrest, hwrap, fmt_d_nat]
  · intro hok
    rw [main_datagrams T w hgpio hsock]
    exact (loop_no_fail T _ _ _ initialState hok).2
  · intro handle fd s x h0
    rw [loopBody_idle _ _ _ _ _ h0]
  · intro handle fd s x h0 hs hint hmax
    rw [loopBody_sent _ _ _ _ _ h0 hs]
    simp only []
    unfold isInt32 at hint
    unfold wrapInt32; omega

/-- Witness for C3: of two frames sent with an idle poll in between, the second carries Frame 1. -/
theorem frame_counter_witness :
    ∃ d rest, (datagrams (main raspberryPi twoFrames).trace)[1]? = some d ∧
      d = framePrefix ++ Nat.toDigits 10 1 ++ "; Thermistor: ".toList ++ rest :=
  have h := frame_counter raspberryPi twoFrames (by decide) (by decide)
  have hlen : (datagrams (main raspberryPi twoFrames).trace).length = 2 := h.2.2.1 (by decide)
  have hlt : 1 < (datagrams (main raspberryPi twoFrames).trace).length := by rw [hlen]; decide
  have ⟨rest, hrest⟩ := h.2.1 1 _ (by decide) (List.getElem?_eq_getElem hlt)
  ⟨_, rest, List.getElem?_eq_getElem hlt, hrest⟩

/-- Datagram `j` of a run over `n` copies of a sample that is read and sent. -/
theorem replicate_run (T : Target) (g fd h : Int) (n : Nat) (x : Sample)
    (hx : x.fails = false) (hr : x.ready = true) (hg : 0 ≤ g) (hfd : 0 ≤ fd)
    (j : Nat) (hj : j < n) :
    ∃ d, (datagrams (main T ⟨g, fd, h, List.replicate n x⟩).trace)[j]? = some d ∧
      ∃ rest, d = framePrefix ++ fmt_d (wrapInt32 j) ++ "; Thermistor: ".toList ++ rest := by
  have hok : ∀ y ∈ List.replicate n x, y.fails = false := by
    intro y hy
    rw [List.eq_of_mem_replicate hy]
    exact hx
  have hfilter : List.filter Sample.ready (List.replicate n x) = List.replicate n x := by
    rw [List.filter_eq_self]
    intro y hy
    rw [List.eq_of_mem_replicate hy]
    exact hr
  have hmain := main_datagrams T ⟨g, fd, h, List.replicate n x⟩ hg hfd
  have hlen := (loop_no_fail T h fd (List.replicate n x) initialState hok).2
  rw [hfilter, List.length_replicate] at hlen
  rw [hmain]
  have hlt : j < (datagrams (whileLoop T h fd initialState (List.replicate n x)).events).length := by
    rw [hlen]; exact hj
  refine ⟨_, List.getElem?_eq_getElem hlt, ?_⟩
  obtain ⟨rest, hrest⟩ := loop_datagram_counter T h fd _ initialState j _
    ⟨by decide, by decide⟩ (List.getElem?_eq_getElem hlt)
  refine ⟨rest, ?_⟩
  have h0 : initialState.ct + (j : Int) = (j : Int) := by
    have : initialState.ct = 0 := rfl
    rw [this]; omega
  rw [h0] at hrest
  exact hrest

/-- C3 (counterexample): in a run of 2147483649 successfully sent frames the
datagram number 2147483648 carries the Frame field "-2147483648", which is not
the decimal rendering of 2147483648 (a text that `%d` cannot produce from an `int`). -/
theorem frame_counter_overflow :
    ∃ d, (datagrams (main raspberryPi longRun).trace)[2147483648]? = some d ∧
      (∃ rest, d = framePrefix ++ "-2147483648".toList ++ "; Thermistor: ".toList ++ rest) ∧
      ¬ ∃ rest, d = framePrefix ++ Nat.toDigits 10 2147483648 ++ "; Thermistor: ".toList ++ rest := by
  obtain ⟨d, hd, rest, hrest⟩ := replicate_run raspberryPi 0 3 0 2147483649 sampleReady rfl rfl
    (by decide) (by decide) 2147483648 (by decide)
  have hwrap : wrapInt32 ((2147483648 : Nat) : Int) = -2147483648 := by decide
  have hfmt : fmt_d (-2147483648) = '-' :: "2147483648".toList := by decide
  have hdig : Nat.toDigits 10 2147483648 = '2' :: "147483648".toList := by decide
  rw [hwrap, hfmt] at hrest
  refine ⟨d, hd, ⟨rest, hrest⟩, ?_⟩
  rintro ⟨rest2, hrest2⟩
  rw [hrest, hdig, List.append_assoc, List.append_assoc, List.append_assoc, List.append_assoc] at hrest2
  have h := List.append_cancel_left hrest2
  simp only [List.cons_append, List.cons.injEq] at h
  exact absurd h.1 (by decide)


/-! ### Shape of the trace -/

theorem whileLoop_append (T : Target) (handle fd : Int) (ok more : List Sample) :
    ∀ s : LoopState, (∀ x ∈ ok, x.fails = false) →
      whileLoop T handle fd s (ok ++ more)
        = ⟨(whileLoop T handle fd s ok).events ++
              (whileLoop T handle fd (whileLoop T handle fd s ok).state more).events,
            (whileLoop T handle fd (whileLoop T handle fd s ok).state more).state,
            (whileLoop T handle fd (whileLoop T handle fd s ok).state more).broke⟩ := by
  induction ok with
  | nil => intro s _; simp [whileLoop_nil]
  | cons w ws ih =>
    intro s h
    have hw : (loopBody T handle fd s w).broke = false := by
      rw [loopBody_broke_iff]; exact h w (List.mem_cons_self _ _)
    rw [List.cons_append, whileLoop_cons_next _ _ _ _ _ _ hw, whileLoop_cons_next _ _ _ _ _ _ hw,
      ih _ (fun x hx => h x (List.mem_cons_of_mem _ hx))]
    simp only [List.append_assoc]

theorem loopBody_countP (T : Target) (handle fd : Int) (s : LoopState) (w : Sample) :
    (loopBody T handle fd s w).events.countP Event.isSocketClose = 0 ∧
    (loopBody T handle fd s w).events.countP Event.isBusClose = 0 := by
  by_cases h0 : w.status = 0
  · rw [loopBody_idle _ _ _ _ _ h0]; exact ⟨rfl, rfl⟩
  · by_cases hf : w.send_status < 0
    · rw [loopBody_fail _ _ _ _ _ h0 hf]; exact ⟨rfl, rfl⟩
    · rw [loopBody_sent _ _ _ _ _ h0 (by omega)]; exact ⟨rfl, rfl⟩

theorem whileLoop_countP (T : Target) (handle fd : Int) (ws : List Sample) :
    ∀ s : LoopState,
      (whileLoop T handle fd s ws).events.countP Event.isSocketClose = 0 ∧
      (whileLoop T handle fd s ws).events.countP Event.isBusClose = 0 := by
  induction ws with
  | nil => intro s; exact ⟨rfl, rfl⟩
  | cons w ws ih =>
    intro s
    by_cases hb : (loopBody T handle fd s w).broke = true
    · rw [whileLoop_cons_broke _ _ _ _ _ _ hb]; exact loopBody_countP _ _ _ _ _
    · rw [whileLoop_cons_next _ _ _ _ _ _ (by simpa using hb)]
      simp only [List.countP_append, (loopBody_countP T handle fd s w).1,
        (loopBody_countP T handle fd s w).2, (ih _).1, (ih _).2]
      exact ⟨trivial, trivial⟩

theorem loop_broke_any (T : Target) (handle fd : Int) (ws : List Sample) :
    ∀ s : LoopState, (whileLoop T handle fd s ws).broke = ws.any Sample.fails := by
  induction ws with
  | nil => intro s; rfl
  | cons w ws ih =>
    intro s
    by_cases hb : (loopBody T handle fd s w).broke = true
    · rw [whileLoop_cons_broke _ _ _ _ _ _ hb, hb]
      rw [loopBody_broke_iff] at hb
      simp [hb]
    · have hb2 : (loopBody T handle fd s w).broke = false := by simpa using hb
      rw [whileLoop_cons_next _ _ _ _ _ _ hb2]
      simp only []
      rw [ih]
      rw [loopBody_broke_iff] at hb2
      simp [hb2]

/-! ### C7 -/

/-- C7: when the sends of the frames before it succeed and the send of the
`n`-th frame fails, the run makes exactly `n` send attempts, the failed one
being followed only by the error report, one `close` of the socket, one
`i2cClose` of the bus handle and `gpioTerminate`; `main` returns, and nothing
of the samples that would have followed is consulted. -/
theorem send_failure_stops (T : Target) (w : World) (hgpio : 0 ≤ w.gpio)
    (hsock : 0 ≤ w.sock_descriptor) (ok : List Sample) (bad : Sample) (rest : List Sample)
    (hsamples : w.samples = ok ++ bad :: rest)
    (hok : ∀ x ∈ ok, x.status ≠ 0 → 0 ≤ x.send_status)
    (hbad : bad.status ≠ 0) (hfail : bad.send_status < 0) :
    (datagrams (main T w).trace).length = (ok.filter Sample.ready).length + 1 ∧
    (∃ (pre : List Event) (sendText : Text),
      (main T w).trace = pre ++ [Event.sendto w.sock_descriptor sendText (sendLength sendText)
        bad.send_status, Event.perror, Event.close w.sock_descriptor, Event.i2cClose w.handle,
        Event.gpioTerminate] ∧
      (datagrams pre).length = (ok.filter Sample.ready).length) ∧
    (main T w).trace.countP Event.isSocketClose = 1 ∧
    (main T w).trace.countP Event.isBusClose = 1 ∧
    (main T w).exitCode = some 0 ∧
    main T w = main T ⟨w.gpio, w.sock_descriptor, w.handle, ok ++ [bad]⟩ := by
  have hok2 : ∀ x ∈ ok, x.fails = false := by
    intro x hx
    by_cases h0 : x.status = 0
    · simp [Sample.fails, h0]
    · have := hok x hx h0
      have h2 : ¬ x.send_status < 0 := by omega
      simp [Sample.fails, h2]
  obtain ⟨hnb, hdl⟩ := loop_no_fail T w.handle w.sock_descriptor ok initialState hok2
  have hloop : ∀ more, whileLoop T w.handle w.sock_descriptor initialState (ok ++ bad :: more)
      = ⟨(whileLoop T w.handle w.sock_descriptor initialState ok).events ++
          (acquireEvents w.handle bad ++
          [Event.sendto w.sock_descriptor
            (frameText T (whileLoop T w.handle w.sock_descriptor initialState ok).state bad)
            (sendLength
              (frameText T (whileLoop T w.handle w.sock_descriptor initialState ok).state bad))
            bad.send_status, Event.perror]),
         ⟨(whileLoop T w.handle w.sock_descriptor initialState ok).state.ct,
          readPixels bad.regs (whileLoop T w.handle w.sock_descriptor initialState ok).state.buf⟩,
         true⟩ := by
    intro more
    rw [whileLoop_append T _ _ ok _ initialState hok2,
      whileLoop_cons_broke _ _ _ _ _ _ (by rw [loopBody_fail _ _ _ _ _ hbad hfail]),
      loopBody_fail _ _ _ _ _ hbad hfail]
  have hmain : ∀ more, main T ⟨w.gpio, w.sock_descriptor, w.handle, ok ++ bad :: more⟩
      = ⟨startup w ++ ((whileLoop T w.handle w.sock_descriptor initialState ok).events ++
          (acquireEvents w.handle bad ++
          [Event.sendto w.sock_descriptor
            (frameText T (whileLoop T w.handle w.sock_descriptor initialState ok).state bad)
            (sendLength
              (frameText T (whileLoop T w.handle w.sock_descriptor initialState ok).state bad))
            bad.send_status, Event.perror])) ++ shutdown w, some 0⟩ := by
    intro more
    rw [main_started T ⟨w.gpio, w.sock_descriptor, w.handle, ok ++ bad :: more⟩ hgpio hsock]
    simp only [hloop more, if_true]
    rfl
  have hw : w = ⟨w.gpio, w.sock_descriptor, w.handle, ok ++ bad :: rest⟩ := by
    cases w; simp only [World.mk.injEq, true_and]; exact hsamples
  have hrun := hmain rest
  rw [← hw] at hrun
  have hs : datagrams (startup w) = [] := rfl
  have he : datagrams (shutdown w) = [] := rfl
  refine ⟨?_, ?_, ?_, ?_, ?_, ?_⟩
  · rw [hrun]
    simp [datagrams_append, hs, he, datagrams_acquire, datagrams, hdl]
  · refine ⟨startup w ++ ((whileLoop T w.handle w.sock_descriptor initialState ok).events ++
      acquireEvents w.handle bad),
      frameText T (whileLoop T w.handle w.sock_descriptor initialState ok).state bad, ?_, ?_⟩
    · rw [hrun]
      simp only [shutdown, List.append_assoc, List.cons_append, List.nil_append]
    · simp [datagrams_append, hs, datagrams_acquire, hdl]
  · rw [hrun]
    simp only [List.countP_append, (whileLoop_countP T w.handle w.sock_descriptor ok initialState).1]
    rfl
  · rw [hrun]
    simp only [List.countP_append, (whileLoop_countP T w.handle w.sock_descriptor ok initialState).2]
    rfl
  · rw [hrun]
  · rw [hrun]
    exact (hmain []).symm

/-- Witness for C7, `n = 3`: the send of the third frame fails and no fourth datagram is attempted. -/
theorem send_failure_stops_witness :
    (datagrams (main raspberryPi thirdSendFails).trace).length = 3 ∧
    (main raspberryPi thirdSendFails).exitCode = some 0 :=
  have h := send_failure_stops raspberryPi thirdSendFails (by decide) (by decide)
    [sampleReady, sampleIdle, sampleReady] sampleSendFails [sampleReady] rfl
    (by decide) (by decide) (by decide)
  ⟨h.1, h.2.2.2.2.1⟩


/-! ### Guarded events -/

theorem guarded_of_none (P : Event → Bool) (Q : List Event → Prop) (tr : List Event)
    (h : ∀ e ∈ tr, P e = false) : Guarded P Q tr := by
  intro pre e post htr hP
  have : e ∈ tr := by rw [htr]; simp
  rw [h e this] at hP
  exact absurd hP (by decide)

theorem guarded_append (P : Event → Bool) (Q : List Event → Prop) (a b : List Event)
    (ha : Guarded P Q a) (hb : Guarded P Q b) (hhead : ∀ e, b.head? = some e → P e = false) :
    Guarded P Q (a ++ b) := by
  intro pre e post htr hP
  rcases List.append_eq_append_iff.mp htr with ⟨c, hpre, hb2⟩ | ⟨c, ha2, hc⟩
  · obtain ⟨pre2, g, hQ, hg⟩ := hb c e post hb2 hP
    exact ⟨a ++ pre2, g, hQ, by rw [hpre, hg, List.append_assoc]⟩
  · cases c with
    | nil =>
      simp only [List.nil_append] at hc
      have := hhead e (by rw [← hc]; rfl)
      rw [this] at hP
      exact absurd hP (by decide)
    | cons x c =>
      simp only [List.cons_append, List.cons.injEq] at hc
      obtain ⟨rfl, -⟩ := hc
      exact ha pre e c ha2 hP

theorem guarded_single (P : Event → Bool) (Q : List Event → Prop) (g : List Event) (e0 : Event)
    (tail : List Event) (hg : ∀ x ∈ g, P x = false) (ht : ∀ x ∈ tail, P x = false) (hQ : Q g) :
    Guarded P Q (g ++ e0 :: tail) := by
  intro pre e post htr hP
  rcases List.append_eq_append_iff.mp htr with ⟨c, hpre, hc⟩ | ⟨c, hg2, hc⟩
  · cases c with
    | nil => exact ⟨[], g, hQ, by simpa using hpre⟩
    | cons x c =>
      simp only [List.cons_append, List.cons.injEq] at hc
      have hmem : e ∈ tail := by rw [hc.2]; simp
      rw [ht e hmem] at hP
      exact absurd hP (by decide)
  · cases c with
    | nil => exact ⟨[], g, hQ, by simpa using hg2.symm⟩
    | cons x c =>
      simp only [List.cons_append, List.cons.injEq] at hc
      have hmem : e ∈ g := by rw [hg2, hc.1]; simp
      rw [hg e hmem] at hP
      exact absurd hP (by decide)

theorem loopBody_head (T : Target) (handle fd : Int) (s : LoopState) (w : Sample) :
    ∃ tail, (loopBody T handle fd s w).events
      = Event.i2cReadByteData handle 0x04 w.status :: tail := by
  by_cases h0 : w.status = 0
  · rw [loopBody_idle _ _ _ _ _ h0, h0]; exact ⟨_, rfl⟩
  · by_cases hf : w.send_status < 0
    · rw [loopBody_fail _ _ _ _ _ h0 hf]; exact ⟨_, rfl⟩
    · rw [loopBody_sent _ _ _ _ _ h0 (by omega)]; exact ⟨_, rfl⟩

theorem whileLoop_head (T : Target) (handle fd : Int) (s : LoopState) (ws : List Sample)
    (e : Event) (h : (whileLoop T handle fd s ws).events.head? = some e) :
    ∃ v, e = Event.i2cReadByteData handle 0x04 v := by
  cases ws with
  | nil => simp [whileLoop_nil] at h
  | cons w ws =>
    obtain ⟨tail, htail⟩ := loopBody_head T handle fd s w
    by_cases hb : (loopBody T handle fd s w).broke = true
    · rw [whileLoop_cons_broke _ _ _ _ _ _ hb, htail] at h
      simp only [List.head?_cons, Option.some.injEq] at h
      exact ⟨_, h.symm⟩
    · rw [whileLoop_cons_next _ _ _ _ _ _ (by simpa using hb)] at h
      simp only [htail, List.cons_append, List.head?_cons, Option.some.injEq] at h
      exact ⟨_, h.symm⟩

theorem loopBody_guarded_read (T : Target) (handle fd : Int) (s : LoopState) (w : Sample) :
    Guarded Event.startsFrameRead (isReadyPoll handle) (loopBody T handle fd s w).events := by
  by_cases h0 : w.status = 0
  · rw [loopBody_idle _ _ _ _ _ h0]
    exact guarded_of_none _ _ _ (by simp [Event.startsFrameRead])
  · have hQ : isReadyPoll handle [Event.i2cReadByteData handle 0x04 w.status] := ⟨_, h0, rfl⟩
    by_cases hf : w.send_status < 0
    · rw [loopBody_fail _ _ _ _ _ h0 hf]
      exact guarded_single _ _ [Event.i2cReadByteData handle 0x04 w.status] _ _
        (by simp [Event.startsFrameRead]) (by simp [Event.startsFrameRead]) hQ
    · rw [loopBody_sent _ _ _ _ _ h0 (by omega)]
      exact guarded_single _ _ [Event.i2cReadByteData handle 0x04 w.status] _ _
        (by simp [Event.startsFrameRead]) (by simp [Event.startsFrameRead]) hQ

theorem loopBody_guarded_send (T : Target) (handle fd : Int) (s : LoopState) (w : Sample) :
    Guarded Event.isSendto (isAcquisition handle) (loopBody T handle fd s w).events := by
  by_cases h0 : w.status = 0
  · rw [loopBody_idle _ _ _ _ _ h0]
    exact guarded_of_none _ _ _ (by simp [Event.isSendto])
  · have hQ : isAcquisition handle (acquireEvents handle w) := ⟨_, h0, rfl⟩
    by_cases hf : w.send_status < 0
    · rw [loopBody_fail _ _ _ _ _ h0 hf]
      exact guarded_single _ _ (acquireEvents handle w) _ _
        (by simp [Event.isSendto, acquireEvents]) (by simp [Event.isSendto]) hQ
    · rw [loopBody_sent _ _ _ _ _ h0 (by omega)]
      exact guarded_single _ _ (acquireEvents handle w) _ _
        (by simp [Event.isSendto, acquireEvents]) (by simp [Event.isSendto]) hQ

theorem whileLoop_guarded (T : Target) (handle fd : Int) (P : Event → Bool)
    (Q : List Event → Prop) (hpoll : ∀ v, P (Event.i2cReadByteData handle 0x04 v) = false)
    (hbody : ∀ s w, Guarded P Q (loopBody T handle fd s w).events) (ws : List Sample) :
    ∀ s : LoopState, Guarded P Q (whileLoop T handle fd s ws).events := by
  induction ws with
  | nil => intro s; exact guarded_of_none _ _ _ (by simp [whileLoop_nil])
  | cons w ws ih =>
    intro s
    by_cases hb : (loopBody T handle fd s w).broke = true
    · rw [whileLoop_cons_broke _ _ _ _ _ _ hb]; exact hbody s w
    · rw [whileLoop_cons_next _ _ _ _ _ _ (by simpa using hb)]
      refine guarded_append _ _ _ _ (hbody s w) (ih _) ?_
      intro e he
      obtain ⟨v, rfl⟩ := whileLoop_head _ _ _ _ _ _ he
      exact hpoll v

theorem main_guarded (T : Target) (w : World) (P : Event → Bool) (Q : List Event → Prop)
    (hpoll : ∀ v, P (Event.i2cReadByteData w.handle 0x04 v) = false)
    (hbody : ∀ s x, Guarded P Q (loopBody T w.handle w.sock_descriptor s x).events)
    (hother : ∀ e, e.isBusOrSend = false → P e = false)
    (hwrite : ∀ h reg val, P (Event.i2cWriteByteData h reg val) = false) :
    Guarded P Q (main T w).trace := by
  have hstart : ∀ e ∈ startup w, P e = false := by
    intro e he
    simp only [startup, configure, List.cons_append, List.nil_append, List.mem_cons,
      List.mem_nil_iff, or_false] at he
    rcases he with rfl | rfl | rfl | rfl | rfl | rfl | rfl | rfl | rfl | rfl | rfl | rfl | rfl |
      rfl | rfl | rfl <;> first | exact hwrite _ _ _ | exact hother _ rfl
  have hshut : ∀ e ∈ shutdown w, P e = false := by
    intro e he
    simp only [shutdown, List.mem_cons, List.mem_nil_iff, or_false] at he
    rcases he with rfl | rfl | rfl <;> exact hother _ rfl
  unfold main
  split
  · exact guarded_of_none _ _ _ (by
      intro e he
      simp only [List.mem_cons, List.mem_nil_iff, or_false] at he
      rw [he]; exact hother _ rfl)
  · split
    · exact guarded_of_none _ _ _ (by
        intro e he
        simp only [List.mem_cons, List.mem_nil_iff, or_false] at he
        rcases he with rfl | rfl | rfl | rfl <;> exact hother _ rfl)
    · have hloop := whileLoop_guarded T w.handle w.sock_descriptor P Q hpoll hbody w.samples
        initialState
      have hsl : Guarded P Q (startup w ++
          (whileLoop T w.handle w.sock_descriptor initialState w.samples).events) := by
        refine guarded_append _ _ _ _ (guarded_of_none _ _ _ hstart) hloop ?_
        intro e he
        obtain ⟨v, rfl⟩ := whileLoop_head _ _ _ _ _ _ he
        exact hpoll v
      simp only []
      split
      · refine guarded_append _ _ _ _ hsl (guarded_of_none _ _ _ hshut) ?_
        intro e he
        simp only [shutdown, List.head?_cons, Option.some.injEq] at he
        rw [← he]; exact hother _ rfl
      · exact hsl

/-! ### C6 -/

/-- C6: every pass of the loop starts by reading status register `0x04`; when the
value is zero the pass consists of that read and a 10 ms sleep, leaves the state
unchanged and stays in the loop; when it is non-zero the pass goes on with the
four block reads, the flag clear, the two thermistor reads and one `sendto`.  In
every run each block read at `0x80` comes right after a status poll that
returned a non-zero value, and each `sendto` right after the bus calls of such a pass. -/
theorem poll_gates_frame (T : Target) (w : World) (handle fd : Int) (s : LoopState) (x : Sample) :
    (∃ tail, (loopBody T handle fd s x).events
      = Event.i2cReadByteData handle 0x04 x.status :: tail) ∧
    (x.status = 0 → loopBody T handle fd s x
      = ⟨[Event.i2cReadByteData handle 0x04 0, Event.usleep 10000], s, false⟩) ∧
    (x.status ≠ 0 → ∃ (sendText : Text) (tail : List Event),
      (loopBody T handle fd s x).events
        = [Event.i2cReadByteData handle 0x04 x.status,
            Event.i2cReadI2CBlockData handle 0x80 0 32,
            Event.i2cReadI2CBlockData handle 0xA0 32 32,
            Event.i2cReadI2CBlockData handle 0xC0 64 32,
            Event.i2cReadI2CBlockData handle 0xE0 96 32,
            Event.i2cWriteByteData handle 0x05 0x06,
            Event.i2cReadByteData handle 0x0F x.thermHigh,
            Event.i2cReadByteData handle 0x0E x.thermLow,
            Event.clock,
            Event.sendto fd sendText (sendLength sendText) x.send_status] ++ tail ∧
      (tail = [] ∨ tail = [Event.perror])) ∧
    (∀ pre e post, (main T w).trace = pre ++ e :: post → e.startsFrameRead = true →
      ∃ pre2 v, v ≠ 0 ∧ pre = pre2 ++ [Event.i2cReadByteData w.handle 0x04 v]) ∧
    (∀ pre e post, (main T w).trace = pre ++ e :: post → e.isSendto = true →
      ∃ pre2 y, y.status ≠ 0 ∧ pre = pre2 ++ acquireEvents w.handle y) := by
  refine ⟨loopBody_head T handle fd s x, loopBody_idle T handle fd s x, ?_, ?_, ?_⟩
  · intro h0
    by_cases hf : x.send_status < 0
    · rw [loopBody_fail _ _ _ _ _ h0 hf]
      exact ⟨frameText T s x, [Event.perror], rfl, Or.inr rfl⟩
    · rw [loopBody_sent _ _ _ _ _ h0 (by omega)]
      exact ⟨frameText T s x, [], rfl, Or.inl rfl⟩
  · intro pre e post htr hP
    have hg := main_guarded T w Event.startsFrameRead (isReadyPoll w.handle) (fun _ => rfl)
      (fun s y => loopBody_guarded_read T _ _ s y)
      (by intro e he; cases e <;> first | rfl | simp [Event.isBusOrSend] at he)
      (fun _ _ _ => rfl)
    obtain ⟨pre2, g, ⟨v, hv, rfl⟩, hpre⟩ := hg pre e post htr hP
    exact ⟨pre2, v, hv, hpre⟩
  · intro pre e post htr hP
    have hg := main_guarded T w Event.isSendto (isAcquisition w.handle) (fun _ => rfl)
      (fun s y => loopBody_guarded_send T _ _ s y)
      (by intro e he; cases e <;> first | rfl | simp [Event.isBusOrSend] at he)
      (fun _ _ _ => rfl)
    obtain ⟨pre2, g, ⟨y, hy, rfl⟩, hpre⟩ := hg pre e post htr hP
    exact ⟨pre2, y, hy, hpre⟩


/-- Witness for C6: a pass whose status register reads zero. -/
theorem poll_gates_frame_witness :
    loopBody raspberryPi 0 3 initialState sampleIdle
      = ⟨[Event.i2cReadByteData 0 0x04 0, Event.usleep 10000], initialState, false⟩ :=
  (poll_gates_frame raspberryPi twoFrames 0 3 initialState sampleIdle).2.1 rfl

/-! ### C8 -/

theorem main_exitCode (T : Target) (w : World) (hgpio : 0 ≤ w.gpio)
    (hsock : 0 ≤ w.sock_descriptor) :
    (main T w).exitCode = if w.samples.any Sample.fails then some 0 else none := by
  rw [main_started T w hgpio hsock, loop_broke_any]
  split <;> rfl

/-- C8 (amended): `main` returns -1 when `gpioInitialise` fails, having called
nothing else; it returns -2 when the creation of the socket fails; once both
have succeeded it returns only after a failed send, and then returns 0, whatever
`i2cOpen` returned; without a failed send it is still in the loop when the
samples end. -/
theorem exit_codes (T : Target) (w : World) :
    (w.gpio < 0 → main T w = ⟨[Event.gpioInitialise w.gpio], some (-1)⟩) ∧
    (0 ≤ w.gpio → w.sock_descriptor < 0 →
      main T w = ⟨[Event.gpioInitialise w.gpio, Event.socket w.sock_descriptor, Event.perror,
        Event.gpioTerminate], some (-2)⟩) ∧
    (0 ≤ w.gpio → 0 ≤ w.sock_descriptor →
      (main T w).exitCode = if w.samples.any Sample.fails then some 0 else none) := by
  refine ⟨?_, ?_, ?_⟩
  · intro h
    simp [main, h]
  · intro h1 h2
    have : ¬ w.gpio < 0 := by omega
    simp [main, this, h2]
  · intro h1 h2
    exact main_exitCode T w h1 h2

/-- Witness for C8: `gpioInitialise` fails. -/
theorem exit_codes_witness :
    main raspberryPi ⟨-1, 3, 0, [sampleReady]⟩ = ⟨[Event.gpioInitialise (-1)], some (-1)⟩ :=
  (exit_codes raspberryPi ⟨-1, 3, 0, [sampleReady]⟩).1 (by decide)

/-- C8 (counterexample): a run whose first send fails ends with `main` returning
0; and a run in which `i2cOpen` returned an error does not return -1 but goes on
to send a datagram. -/
theorem send_failure_exit_zero :
    (main raspberryPi firstSendFails).exitCode = some 0 ∧
    busDown.handle < 0 ∧
    (main raspberryPi busDown).exitCode ≠ some (-1) ∧
    (datagrams (main raspberryPi busDown).trace).length = 1 := by
  refine ⟨?_, by decide, ?_, ?_⟩
  · rw [main_exitCode raspberryPi firstSendFails (by decide) (by decide)]
    rfl
  · rw [main_exitCode raspberryPi busDown (by decide) (by decide)]
    decide
  · rw [main_datagrams raspberryPi busDown (by decide) (by decide)]
    exact (loop_no_fail raspberryPi _ _ _ initialState (by decide)).2

/-! ### C9 -/

theorem whileLoop_countP_zero (T : Target) (handle fd : Int) (p : Event → Bool)
    (hp : ∀ s w, (loopBody T handle fd s w).events.countP p = 0) (ws : List Sample) :
    ∀ s : LoopState, (whileLoop T handle fd s ws).events.countP p = 0 := by
  induction ws with
  | nil => intro s; rfl
  | cons w ws ih =>
    intro s
    by_cases hb : (loopBody T handle fd s w).broke = true
    · rw [whileLoop_cons_broke _ _ _ _ _ _ hb]; exact hp s w
    · rw [whileLoop_cons_next _ _ _ _ _ _ (by simpa using hb)]
      simp only [List.countP_append, hp s w, ih _]

theorem loopBody_no_config_write (T : Target) (handle fd : Int) (s : LoopState) (w : Sample) :
    (loopBody T handle fd s w).events.countP Event.isConfigWrite = 0 := by
  by_cases h0 : w.status = 0
  · rw [loopBody_idle _ _ _ _ _ h0]; rfl
  · by_cases hf : w.send_status < 0
    · rw [loopBody_fail _ _ _ _ _ h0 hf]; rfl
    · rw [loopBody_sent _ _ _ _ _ h0 (by omega)]; rfl

/-- C9 (what the code does): a run that gets past startup begins with the listed
calls, in which the wait after the initial reset is `usleep( 20000 )`, that is
20 ms where the comment above it announces 200 ms; everything after them
contains no register write other than `0x06` to register `0x05`. -/
theorem configuration_sequence (T : Target) (w : World) (hgpio : 0 ≤ w.gpio)
    (hsock : 0 ≤ w.sock_descriptor) :
    ∃ rest, (main T w).trace
      = [ Event.gpioInitialise w.gpio,
          Event.socket w.sock_descriptor,
          Event.setsockopt w.sock_descriptor,
          Event.i2cOpen w.handle,
          Event.i2cWriteByteData w.handle 0x00 0x00,
          Event.usleep 50000,
          Event.i2cWriteByteData w.handle 0x01 0x3F,
          Event.usleep 20000,
          Event.i2cWriteByteData w.handle 0x01 0x30,
          Event.i2cWriteByteData w.handle 0x02 0x00,
          Event.i2cWriteByteData w.handle 0x03 0x03,
          Event.i2cWriteByteData w.handle 0x1F 0x50,
          Event.i2cWriteByteData w.handle 0x1F 0x45,
          Event.i2cWriteByteData w.handle 0x1F 0x57,
          Event.i2cWriteByteData w.handle 0x07 0x20,
          Event.i2cWriteByteData w.handle 0x1F 0x00 ] ++ rest ∧
      (∀ e ∈ rest, ∀ (h : Int) (reg val : Nat),
        e = Event.i2cWriteByteData h reg val → reg = 0x05 ∧ val = 0x06) := by
  have hloop := whileLoop_countP_zero T w.handle w.sock_descriptor Event.isConfigWrite
    (loopBody_no_config_write T w.handle w.sock_descriptor) w.samples initialState
  have hwrite : ∀ rest : List Event, rest.countP Event.isConfigWrite = 0 →
      ∀ e ∈ rest, ∀ (h : Int) (reg val : Nat),
        e = Event.i2cWriteByteData h reg val → reg = 0x05 ∧ val = 0x06 := by
    intro rest hrest e he h reg val heq
    have := (List.countP_eq_zero.mp hrest) e he
    rw [heq] at this
    simpa [Event.isConfigWrite] using this
  rw [main_started T w hgpio hsock]
  split
  · refine ⟨(whileLoop T w.handle w.sock_descriptor initialState w.samples).events ++ shutdown w,
      ?_, hwrite _ ?_⟩
    · simp only [startup, configure, List.append_assoc, List.cons_append, List.nil_append]
    · rw [List.countP_append, hloop]; rfl
  · exact ⟨(whileLoop T w.handle w.sock_descriptor initialState w.samples).events,
      rfl, hwrite _ hloop⟩

/-- Witness for C9: a run of two frames. -/
theorem configuration_sequence_witness :
    ∃ rest, (main raspberryPi twoFrames).trace
      = [ Event.gpioInitialise 0, Event.socket 3, Event.setsockopt 3, Event.i2cOpen 0,
          Event.i2cWriteByteData 0 0x00 0x00,
          Event.usleep 50000,
          Event.i2cWriteByteData 0 0x01 0x3F,
          Event.usleep 20000,
          Event.i2cWriteByteData 0 0x01 0x30,
          Event.i2cWriteByteData 0 0x02 0x00,
          Event.i2cWriteByteData 0 0x03 0x03,
          Event.i2cWriteByteData 0 0x1F 0x50,
          Event.i2cWriteByteData 0 0x1F 0x45,
          Event.i2cWriteByteData 0 0x1F 0x57,
          Event.i2cWriteByteData 0 0x07 0x20,
          Event.i2cWriteByteData 0 0x1F 0x00 ] ++ rest :=
  have ⟨rest, h, _⟩ := configuration_sequence raspberryPi twoFrames (by decide) (by decide)
  ⟨rest, h⟩

/-! ### Remarks on a target with signed plain `char` -/

/-- With signed plain `char` a buffer byte `0x80` is promoted to a negative `int`
and `%02x` prints eight digits; the statements C1, C2 and C10 are about the
Raspberry Pi target, where this does not happen. -/
theorem signed_char_entry :
    pixelEntry signedCharTarget (List.replicate 128 0x80) 0 0 = "ffffff80,ffffff80,".toList ∧
    pixelEntry raspberryPi (List.replicate 128 0x80) 0 0 = "80,80,".toList := by
  decide

end GridEYE
